import Mathlib

/-!
Verification of the extraction-and-validation pipeline of `PDF_export_data.py`.

The embedding models Python/JSON values as `PyVal`, Python exceptions as
`PyErr`, and every fallible step as an `Except PyErr` computation.  The
remote generative-AI service is an opaque collaborator, so its behaviour is
an explicit environment (`ProcEnv`): the result of the upload call, the
successive results of the status polls, the result of the generation call
and the result of the delete call.  The unbounded polling loop is modelled
by consuming the finite list of poll results; exhausting it while the state
is still `PROCESSING` is divergence, rendered as `Option.none` at the top
level.
-/

/-- Python values produced by `json.loads` (floats omitted; none of the
checked behaviour involves them).  Booleans and integers are distinct
constructors because Python distinguishes them everywhere except in
`isinstance(-, int)`. -/
inductive PyVal where
  | none : PyVal
  | bool (b : Bool) : PyVal
  | int (n : Int) : PyVal
  | str (s : String) : PyVal
  | list (xs : List PyVal) : PyVal
  | dict (kvs : List (String × PyVal)) : PyVal

mutual

/-- Structural equality test on `PyVal` (deriving fails on the nested
inductive, so it is written out). -/
def pyBeq : PyVal → PyVal → Bool
  | .none, .none => true
  | .bool a, .bool b => a == b
  | .int a, .int b => a == b
  | .str a, .str b => a == b
  | .list a, .list b => pyBeqItems a b
  | .dict a, .dict b => pyBeqPairs a b
  | _, _ => false

def pyBeqItems : List PyVal → List PyVal → Bool
  | [], [] => true
  | x :: xs, y :: ys => pyBeq x y && pyBeqItems xs ys
  | _, _ => false

def pyBeqPairs : List (String × PyVal) → List (String × PyVal) → Bool
  | [], [] => true
  | (k, v) :: xs, (l, w) :: ys => k == l && pyBeq v w && pyBeqPairs xs ys
  | _, _ => false

end

mutual

theorem pyBeq_iff : ∀ a b : PyVal, pyBeq a b = true ↔ a = b
  | .none, .none => by simp [pyBeq]
  | .bool _, .bool _ => by simp [pyBeq]
  | .int _, .int _ => by simp [pyBeq]
  | .str _, .str _ => by simp [pyBeq]
  | .list x, .list y => by simp [pyBeq, pyBeqItems_iff x y]
  | .dict x, .dict y => by simp [pyBeq, pyBeqPairs_iff x y]
  | .none, .bool _ | .none, .int _ | .none, .str _ | .none, .list _ | .none, .dict _
  | .bool _, .none | .bool _, .int _ | .bool _, .str _ | .bool _, .list _ | .bool _, .dict _
  | .int _, .none | .int _, .bool _ | .int _, .str _ | .int _, .list _ | .int _, .dict _
  | .str _, .none | .str _, .bool _ | .str _, .int _ | .str _, .list _ | .str _, .dict _
  | .list _, .none | .list _, .bool _ | .list _, .int _ | .list _, .str _ | .list _, .dict _
  | .dict _, .none | .dict _, .bool _ | .dict _, .int _ | .dict _, .str _ | .dict _, .list _ =>
    by simp [pyBeq]

theorem pyBeqItems_iff : ∀ xs ys : List PyVal, pyBeqItems xs ys = true ↔ xs = ys
  | [], [] => by simp [pyBeqItems]
  | x :: xs, y :: ys => by simp [pyBeqItems, pyBeq_iff x y, pyBeqItems_iff xs ys]
  | [], _ :: _ => by simp [pyBeqItems]
  | _ :: _, [] => by simp [pyBeqItems]

theorem pyBeqPairs_iff : ∀ xs ys : List (String × PyVal), pyBeqPairs xs ys = true ↔ xs = ys
  | [], [] => by simp [pyBeqPairs]
  | (k, v) :: xs, (l, w) :: ys => by
    simp [pyBeqPairs, pyBeq_iff v w, pyBeqPairs_iff xs ys, and_assoc]
  | [], _ :: _ => by simp [pyBeqPairs]
  | _ :: _, [] => by simp [pyBeqPairs]

end

instance : DecidableEq PyVal := fun a b => decidable_of_iff (pyBeq a b = true) (pyBeq_iff a b)

/-- Python exceptions that the modelled code can raise or receive from the
remote service. -/
inductive PyErr where
  | typeError : PyErr
  | attributeError : PyErr
  | jsonDecodeError : PyErr
  | stateError (state : String) : PyErr
  | other (msg : String) : PyErr
deriving DecidableEq

/-- Python truthiness (`bool(v)`) on the modelled values. -/
def pyTruthy : PyVal → Bool
  | .none => false
  | .bool b => b
  | .int n => n != 0
  | .str s => !s.data.isEmpty
  | .list xs => !xs.isEmpty
  | .dict kvs => !kvs.isEmpty

/-- Python `isinstance(v, int)`: true for `int` and also for `bool`,
because `bool` is a subclass of `int`. -/
def pyIsInstInt : PyVal → Bool
  | .int _ => true
  | .bool _ => true
  | _ => false

/-- Python `len(v)`: defined for sized values, `none` (a `TypeError`)
otherwise. -/
def pyLen : PyVal → Option Nat
  | .str s => some s.data.length
  | .list xs => some xs.length
  | .dict kvs => some kvs.length
  | _ => Option.none

/-- Test that the first list is a prefix of the second. -/
def listPre : List Char → List Char → Bool
  | [], _ => true
  | _ :: _, [] => false
  | a :: as, b :: bs => a == b && listPre as bs

/-- Substring test, for Python's `key in someString`. -/
def listSub (needle : List Char) : List Char → Bool
  | [] => needle.isEmpty
  | c :: rest => listPre needle (c :: rest) || listSub needle rest

/-- Python `element == key` for a string `key`: only a `str` value can
compare equal to a string. -/
def pyValIsStr (key : String) : PyVal → Bool
  | .str s => s == key
  | _ => false

/-- Python membership test `key in v` for a string key: key lookup on a
dict, substring test on a string, element test on a list, and a
`TypeError` on values that do not support membership testing
(`None`, booleans, integers). -/
def pyContains (key : String) : PyVal → Except PyErr Bool
  | .dict kvs => .ok (kvs.any fun kv => kv.1 == key)
  | .str s => .ok (listSub key.data s.data)
  | .list xs => .ok (xs.any (pyValIsStr key))
  | _ => .error .typeError

/-- Python `v.get(key, dflt)`: only dicts have `.get`; any other value
raises an `AttributeError`. -/
def pyGet (key : String) (dflt : PyVal) : PyVal → Except PyErr PyVal
  | .dict kvs => .ok ((kvs.lookup key).getD dflt)
  | _ => .error .attributeError

/-- First validator check (`PDF_export_data.py` line 121):
`'page_number' not in entry or not isinstance(entry.get('page_number'), int)`.
Returns `true` when the check FAILS (the field is to be reported). -/
def check1 (entry : PyVal) : Except PyErr Bool :=
  match pyContains "page_number" entry with
  | .error e => .error e
  | .ok false => .ok true
  | .ok true =>
    match pyGet "page_number" PyVal.none entry with
    | .error e => .error e
    | .ok v => .ok (!pyIsInstInt v)

/-- Second validator check (line 124):
`'source_quote' not in entry or not entry.get('source_quote') or
len(entry.get('source_quote', '')) < 10`, with Python's short-circuit
evaluation: `len` is only reached when the value is present and truthy,
and raises a `TypeError` when the value is unsized. -/
def check2 (entry : PyVal) : Except PyErr Bool :=
  match pyContains "source_quote" entry with
  | .error e => .error e
  | .ok false => .ok true
  | .ok true =>
    match pyGet "source_quote" PyVal.none entry with
    | .error e => .error e
    | .ok v =>
      if !pyTruthy v then .ok true
      else
        match pyGet "source_quote" (PyVal.str "") entry with
        | .error e => .error e
        | .ok w =>
          match pyLen w with
          | some n => .ok (decide (n < 10))
          | Option.none => .error .typeError

/-- Third validator check (line 127):
`'section' not in entry or not entry.get('section')`. -/
def check3 (entry : PyVal) : Except PyErr Bool :=
  match pyContains "section" entry with
  | .error e => .error e
  | .ok false => .ok true
  | .ok true =>
    match pyGet "section" PyVal.none entry with
    | .error e => .error e
    | .ok v => .ok (!pyTruthy v)

/-- The per-record citation validator (lines 119-128): runs the three
checks in order, accumulating the names of all failed fields exactly as
`missing_fields` does. -/
def checkEntry (entry : PyVal) : Except PyErr (List String) :=
  match check1 entry with
  | .error e => .error e
  | .ok f1 =>
    match check2 entry with
    | .error e => .error e
    | .ok f2 =>
      match check3 entry with
      | .error e => .error e
      | .ok f3 =>
        .ok ((if f1 then ["page_number"] else []) ++
             (if f2 then ["source_quote (min 10 chars)"] else []) ++
             (if f3 then ["section"] else []))

/-- Decimal digit character. -/
def digitChar (n : Nat) : Char := Char.ofNat (48 + n)

/-- Fuel-driven decimal printing helper (structural so that the kernel can
evaluate it). -/
def natCharsAux : Nat → Nat → List Char
  | 0, _ => []
  | fuel + 1, n =>
    if n < 10 then [digitChar n]
    else natCharsAux fuel (n / 10) ++ [digitChar (n % 10)]

/-- Decimal representation of a natural number, as Python's `str` writes it. -/
def natChars (n : Nat) : List Char := natCharsAux (n + 1) n

/-- Python `', '.join(fields)`. -/
def joinFields : List String → String
  | [] => ""
  | [f] => f
  | f :: fs => f ++ ", " ++ joinFields fs

/-- The warning text built at line 131:
`f"Entry {idx+1}: Missing {', '.join(missing_fields)}"`. -/
def warnMsg (idx : Nat) (fields : List String) : String :=
  "Entry " ++ String.mk (natChars (idx + 1)) ++ ": Missing " ++ joinFields fields

/-- The validation loop of lines 118-133: each entry is checked; a record
with no missing fields is appended unchanged to `validated_data`, any
other produces a warning naming its missing fields; an exception inside
any check aborts the whole loop. -/
def validateLoop : Nat → List PyVal → Except PyErr (List PyVal × List String)
  | _, [] => .ok ([], [])
  | idx, e :: rest =>
    match checkEntry e with
    | .error err => .error err
    | .ok fields =>
      match validateLoop (idx + 1) rest with
      | .error err => .error err
      | .ok (vd, ws) =>
        if fields.isEmpty then .ok (e :: vd, ws)
        else .ok (vd, warnMsg idx fields :: ws)

/-- Lower-case hexadecimal digit character, as CPython's `json` emits. -/
def hexChar (n : Nat) : Char :=
  if n < 10 then digitChar n else Char.ofNat (87 + n)

/-- Escaping of one character inside a JSON string literal, following
`json.dumps` with `ensure_ascii=False`: the two mandatory escapes, the
five short control escapes, `\u00XX` for the remaining control
characters, and every other character (ASCII or not) verbatim. -/
def escChar (c : Char) : List Char :=
  if c = '"' then ['\\', '"']
  else if c = '\\' then ['\\', '\\']
  else if c = '\n' then ['\\', 'n']
  else if c = '\r' then ['\\', 'r']
  else if c = '\t' then ['\\', 't']
  else if c = Char.ofNat 8 then ['\\', 'b']
  else if c = Char.ofNat 12 then ['\\', 'f']
  else if c.toNat < 32 then
    ['\\', 'u', '0', '0', hexChar (c.toNat / 16), hexChar (c.toNat % 16)]
  else [c]

/-- Escaping of a whole string body. -/
def escChars : List Char → List Char
  | [] => []
  | c :: cs => escChar c ++ escChars cs

/-- Decimal representation of an integer, as Python prints it. -/
def intChars (n : Int) : List Char :=
  if n < 0 then '-' :: natChars (-n).toNat else natChars n.toNat

mutual

/-- Serialization of one value: `json.dumps(v, ensure_ascii=False)` with
the default separators `', '` and `': '`. -/
def dumpVal : PyVal → List Char
  | .none => "null".data
  | .bool true => "true".data
  | .bool false => "false".data
  | .int n => intChars n
  | .str s => '"' :: (escChars s.data ++ ['"'])
  | .list xs => '[' :: (dumpItems xs ++ [']'])
  | .dict kvs => '{' :: (dumpPairs kvs ++ ['}'])

def dumpItems : List PyVal → List Char
  | [] => []
  | [x] => dumpVal x
  | x :: xs => dumpVal x ++ ',' :: ' ' :: dumpItems xs

def dumpPair : String × PyVal → List Char
  | (k, v) => '"' :: (escChars k.data ++ '"' :: ':' :: ' ' :: dumpVal v)

def dumpPairs : List (String × PyVal) → List Char
  | [] => []
  | [kv] => dumpPair kv
  | kv :: kvs => dumpPair kv ++ ',' :: ' ' :: dumpPairs kvs

end

/-- JSON whitespace. -/
def isJsonWs (c : Char) : Bool :=
  c = ' ' || c = '\t' || c = '\n' || c = '\r'

/-- Drop leading JSON whitespace. -/
def skipWs : List Char → List Char
  | [] => []
  | c :: rest => if isJsonWs c then skipWs rest else c :: rest

/-- Value of a hexadecimal digit character. -/
def hexVal (c : Char) : Option Nat :=
  if '0' ≤ c ∧ c ≤ '9' then some (c.toNat - 48)
  else if 'a' ≤ c ∧ c ≤ 'f' then some (c.toNat - 87)
  else if 'A' ≤ c ∧ c ≤ 'F' then some (c.toNat - 55)
  else Option.none

/-- Decoding of a single-character JSON escape. -/
def unescChar (c : Char) : Option Char :=
  if c = '"' then some '"'
  else if c = '\\' then some '\\'
  else if c = '/' then some '/'
  else if c = 'n' then some '\n'
  else if c = 't' then some '\t'
  else if c = 'r' then some '\r'
  else if c = 'b' then some (Char.ofNat 8)
  else if c = 'f' then some (Char.ofNat 12)
  else Option.none

/-- Parse the body of a JSON string literal (the opening quote already
consumed), returning the decoded characters and the input after the
closing quote. -/
def parseStringBody : List Char → Except PyErr (List Char × List Char)
  | [] => .error .jsonDecodeError
  | c :: rest =>
    if c = '"' then .ok ([], rest)
    else if c = '\\' then
      match rest with
      | [] => .error .jsonDecodeError
      | e :: rest2 =>
        if e = 'u' then
          match rest2 with
          | h1 :: h2 :: h3 :: h4 :: rest3 =>
            match hexVal h1, hexVal h2, hexVal h3, hexVal h4 with
            | some x1, some x2, some x3, some x4 =>
              if Nat.isValidChar (((x1 * 16 + x2) * 16 + x3) * 16 + x4) then
                match parseStringBody rest3 with
                | .error err => .error err
                | .ok (s, r) =>
                  .ok (Char.ofNat (((x1 * 16 + x2) * 16 + x3) * 16 + x4) :: s, r)
              else .error .jsonDecodeError
            | _, _, _, _ => .error .jsonDecodeError
          | _ => .error .jsonDecodeError
        else
          match unescChar e with
          | some u =>
            match parseStringBody rest2 with
            | .error err => .error err
            | .ok (s, r) => .ok (u :: s, r)
          | Option.none => .error .jsonDecodeError
    else
      match parseStringBody rest with
      | .error err => .error err
      | .ok (s, r) => .ok (c :: s, r)

/-- Decimal digit test (the character set of `Char.isDigit`, phrased on
code points). -/
def isDigitB (c : Char) : Bool := 48 ≤ c.toNat && c.toNat ≤ 57

/-- Numeric value of a digit string. -/
def digitsVal (ds : List Char) : Nat :=
  ds.foldl (fun a c => a * 10 + (c.toNat - 48)) 0

/-- Parse a run of decimal digits as a natural number; reject an empty
run and reject a following `.`, `e` or `E` (this embedding has no
floats). -/
def parseNatPart (input : List Char) : Except PyErr (Nat × List Char) :=
  let ds := input.takeWhile isDigitB
  let rest := input.dropWhile isDigitB
  if ds.isEmpty then .error .jsonDecodeError
  else
    match rest with
    | [] => .ok (digitsVal ds, [])
    | c :: _ =>
      if c = '.' || c = 'e' || c = 'E' then .error .jsonDecodeError
      else .ok (digitsVal ds, rest)

/-- Parse a JSON integer. -/
def parseNumber (input : List Char) : Except PyErr (PyVal × List Char) :=
  match input with
  | [] => .error .jsonDecodeError
  | c :: rest =>
    if c = '-' then
      match parseNatPart rest with
      | .error e => .error e
      | .ok (n, r) => .ok (.int (-(n : Int)), r)
    else
      match parseNatPart (c :: rest) with
      | .error e => .error e
      | .ok (n, r) => .ok (.int (n : Int), r)

/-- Strip an expected literal from the input. -/
def stripPre : List Char → List Char → Option (List Char)
  | [], s => some s
  | _ :: _, [] => Option.none
  | c :: cs, d :: ds => if c = d then stripPre cs ds else Option.none

/-- Python dict item assignment `d[k] = v`: replaces the value at an
existing key in place, otherwise appends. -/
def setKV : List (String × PyVal) → String → PyVal → List (String × PyVal)
  | [], k, v => [(k, v)]
  | kv :: rest, k, v => if kv.1 = k then (k, v) :: rest else kv :: setKV rest k v

/-- Building a Python dict from parsed members in order, as `json.loads`
does (a repeated key keeps the first position and the last value). -/
def pyDictOf (pairs : List (String × PyVal)) : List (String × PyVal) :=
  pairs.foldl (fun acc kv => setKV acc kv.1 kv.2) []

mutual

/-- Recursive-descent JSON value parser; `fuel` bounds the nesting and
is decremented on every nested call, so the definition is structural
and kernel-evaluable. -/
def parseVal : Nat → List Char → Except PyErr (PyVal × List Char)
  | 0, _ => .error .jsonDecodeError
  | fuel + 1, input =>
    match input with
    | [] => .error .jsonDecodeError
    | c :: rest =>
      if isDigitB c || c = '-' then parseNumber (c :: rest)
      else if c = '"' then
        match parseStringBody rest with
        | .error e => .error e
        | .ok (s, r) => .ok (.str (String.mk s), r)
      else if c = '[' then
        match skipWs rest with
        | [] => .error .jsonDecodeError
        | d :: r2 =>
          if d = ']' then .ok (.list [], r2)
          else
            match parseItems fuel (d :: r2) with
            | .error e => .error e
            | .ok (xs, r3) => .ok (.list xs, r3)
      else if c = '{' then
        match skipWs rest with
        | [] => .error .jsonDecodeError
        | d :: r2 =>
          if d = '}' then .ok (.dict [], r2)
          else
            match parseMembers fuel (d :: r2) with
            | .error e => .error e
            | .ok (kvs, r3) => .ok (.dict (pyDictOf kvs), r3)
      else if c = 'n' then
        match stripPre "ull".data rest with
        | some r => .ok (.none, r)
        | Option.none => .error .jsonDecodeError
      else if c = 't' then
        match stripPre "rue".data rest with
        | some r => .ok (.bool true, r)
        | Option.none => .error .jsonDecodeError
      else if c = 'f' then
        match stripPre "alse".data rest with
        | some r => .ok (.bool false, r)
        | Option.none => .error .jsonDecodeError
      else .error .jsonDecodeError

/-- Parse the elements of a non-empty JSON array, up to and including the
closing bracket. -/
def parseItems : Nat → List Char → Except PyErr (List PyVal × List Char)
  | 0, _ => .error .jsonDecodeError
  | fuel + 1, input =>
    match parseVal fuel input with
    | .error e => .error e
    | .ok (v, rest) =>
      match skipWs rest with
      | ',' :: r2 =>
        match parseItems fuel (skipWs r2) with
        | .error e => .error e
        | .ok (xs, r3) => .ok (v :: xs, r3)
      | ']' :: r2 => .ok ([v], r2)
      | _ => .error .jsonDecodeError

/-- Parse the members of a non-empty JSON object, up to and including the
closing brace. -/
def parseMembers : Nat → List Char → Except PyErr (List (String × PyVal) × List Char)
  | 0, _ => .error .jsonDecodeError
  | fuel + 1, input =>
    match input with
    | '"' :: rest =>
      match parseStringBody rest with
      | .error e => .error e
      | .ok (k, r1) =>
        match skipWs r1 with
        | ':' :: r2 =>
          match parseVal fuel (skipWs r2) with
          | .error e => .error e
          | .ok (v, r3) =>
            match skipWs r3 with
            | ',' :: r4 =>
              match parseMembers fuel (skipWs r4) with
              | .error e => .error e
              | .ok (kvs, r5) => .ok ((String.mk k, v) :: kvs, r5)
            | '}' :: r4 => .ok ([(String.mk k, v)], r4)
            | _ => .error .jsonDecodeError
        | _ => .error .jsonDecodeError
    | _ => .error .jsonDecodeError

end

/-- The embedding of `json.loads`: parse one value and require the rest of
the input to be whitespace. -/
def pyLoadsC (s : List Char) : Except PyErr PyVal :=
  match parseVal (s.length + 1) (skipWs s) with
  | .error e => .error e
  | .ok (v, rest) => if (skipWs rest).isEmpty then .ok v else .error .jsonDecodeError

mutual

/-- Fuel measure for the parser: 1 for a scalar, plus 1 for every nested
value. -/
def pySize : PyVal → Nat
  | .list xs => pyItemsSize xs + 1
  | .dict kvs => pyPairsSize kvs + 1
  | _ => 1

def pyItemsSize : List PyVal → Nat
  | [] => 0
  | x :: xs => pySize x + pyItemsSize xs + 1

def pyPairsSize : List (String × PyVal) → Nat
  | [] => 0
  | kv :: kvs => pySize kv.2 + pyPairsSize kvs + 1

end

/-- Key distinctness of an association list. -/
def nodupKeys : List (String × PyVal) → Bool
  | [] => true
  | kv :: rest => !(rest.any fun kw => kw.1 == kv.1) && nodupKeys rest

mutual

/-- Wellformedness of a value seen as the image of a Python object: every
dict (at any depth) has pairwise distinct keys, which Python dicts
guarantee by construction. -/
def pyWf : PyVal → Bool
  | .list xs => pyItemsWf xs
  | .dict kvs => nodupKeys kvs && pyPairsWf kvs
  | _ => true

def pyItemsWf : List PyVal → Bool
  | [] => true
  | x :: xs => pyWf x && pyItemsWf xs

def pyPairsWf : List (String × PyVal) → Bool
  | [] => true
  | kv :: kvs => pyWf kv.2 && pyPairsWf kvs

end

/-- A context in which a serialized value may legally stop: end of input,
or an element/member separator or closing bracket. -/
def delimB : List Char → Bool
  | [] => true
  | c :: _ => c = ',' || c = ']' || c = '}'

/-- Python iteration `for entry in batch_data`: a list yields its
elements, a string its characters, a dict its keys; `None`, booleans and
integers raise a `TypeError`. -/
def pyIter : PyVal → Except PyErr (List PyVal)
  | .list xs => .ok xs
  | .str s => .ok (s.data.map fun c => .str (String.mk [c]))
  | .dict kvs => .ok (kvs.map fun kv => .str kv.1)
  | _ => .error .typeError

/-- A handle on the remote service: the object returned by
`genai.upload_file` / `genai.get_file`, carrying `state.name`. -/
structure RemoteFile where
  name : String
  state : String
deriving DecidableEq

/-- The behaviour of the remote service during one run of
`process_single_pdf`: the upload result, the successive `get_file`
results consumed by the polling loop, the generation result
(`response.text`, or the exception the call raised), and the delete
result. -/
structure ProcEnv where
  uploadResult : Except PyErr RemoteFile
  fetches : List (Except PyErr RemoteFile)
  generateResult : Except PyErr String
  deleteResult : Except PyErr Unit

/-- The polling loop of lines 56-58: while the state is `PROCESSING`,
sleep and re-fetch.  The loop has no bound in the source; exhausting the
finite list of fetch results while still `PROCESSING` models divergence
(`Option.none`). -/
def pollFile : RemoteFile → List (Except PyErr RemoteFile) → Option (Except PyErr RemoteFile)
  | f, fetches =>
    if f.state = "PROCESSING" then
      match fetches with
      | [] => Option.none
      | .error e :: _ => some (.error e)
      | .ok f2 :: rest => pollFile f2 rest
    else some (.ok f)

/-- The `try` block of `process_single_pdf` (lines 50-148): upload, poll,
ready-check (line 60 raises unless the state is `ACTIVE`), generate,
decode with `json.loads`, iterate, validate; the first exception anywhere
aborts the block. -/
def tryBody (env : ProcEnv) : Option (Except PyErr (List PyVal)) :=
  match env.uploadResult with
  | .error e => some (.error e)
  | .ok f =>
    match pollFile f env.fetches with
    | Option.none => Option.none
    | some (.error e) => some (.error e)
    | some (.ok f2) =>
      if f2.state = "ACTIVE" then
        match env.generateResult with
        | .error e => some (.error e)
        | .ok text =>
          match pyLoadsC text.data with
          | .error e => some (.error e)
          | .ok data =>
            match pyIter data with
            | .error e => some (.error e)
            | .ok entries =>
              match validateLoop 0 entries with
              | .error e => some (.error e)
              | .ok (vd, _) => some (.ok vd)
      else some (.error (.stateError f2.state))

/-- The inner `try: genai.delete_file(...) except: pass` of lines
160-163: any delete failure is discarded. -/
def swallow : Except PyErr Unit → Except PyErr Unit
  | .ok u => .ok u
  | .error _ => .ok ()

/-- The `finally` block of lines 157-163: when `uploaded_file` is set
(the upload succeeded) the delete call is made, its failure swallowed;
otherwise nothing happens.  Returns the block's own outcome and how many
delete calls were made. -/
def cleanupStep (env : ProcEnv) : Except PyErr Unit × Nat :=
  match env.uploadResult with
  | .error _ => (.ok (), 0)
  | .ok _ => (swallow env.deleteResult, 1)

instance exceptDecEq {ε α : Type} [DecidableEq ε] [DecidableEq α] :
    DecidableEq (Except ε α) := fun x y =>
  match x, y with
  | .ok a, .ok b =>
    if h : a = b then isTrue (by rw [h]) else isFalse (by simp [h])
  | .error a, .error b =>
    if h : a = b then isTrue (by rw [h]) else isFalse (by simp [h])
  | .ok _, .error _ => isFalse (by simp)
  | .error _, .ok _ => isFalse (by simp)

/-- What one call of `process_single_pdf` did: the value it returned to
the caller (or the exception that escaped, were one ever to escape), the
number of remote delete calls, and the exception caught and reported by
the `except` arm, if any. -/
structure ProcOutcome where
  outcome : Except PyErr (List PyVal)
  deletes : Nat
  reported : Option PyErr
deriving DecidableEq

/-- The whole of `process_single_pdf` (lines 43-163): run the `try`
block; an exception is caught by the `except Exception` arm of lines
150-156, which reports it and returns `[]`; the `finally` block then
runs, and per Python semantics an exception raised by `finally` itself
would replace the result. -/
def processSinglePdf (env : ProcEnv) : Option ProcOutcome :=
  match tryBody env with
  | Option.none => Option.none
  | some bodyRes =>
    let handled : Except PyErr (List PyVal) × Option PyErr :=
      match bodyRes with
      | .ok v => (.ok v, Option.none)
      | .error e => (.ok [], some e)
    match cleanupStep env with
    | (.error e2, n) => some ⟨.error e2, n, handled.2⟩
    | (.ok _, n) => some ⟨handled.1, n, handled.2⟩

/-- Lexicographic comparison of strings by code point, Python's `<=` on
`str` (and the order `sorted` uses). -/
def lexLe : List Char → List Char → Bool
  | [], _ => true
  | _ :: _, [] => false
  | a :: as, b :: bs =>
    if a.toNat < b.toNat then true
    else if a.toNat = b.toNat then lexLe as bs
    else false

/-- String comparison wrapper for `lexLe`. -/
def strLeB (a b : String) : Bool := lexLe a.data b.data

/-- Insertion into a sorted list. -/
def insertSorted (a : String) : List String → List String
  | [] => [a]
  | b :: bs => if strLeB a b then a :: b :: bs else b :: insertSorted a bs

/-- Sorting, modelling Python's `sorted` on strings.  (The algorithm
differs from CPython's, but on an antisymmetric total order the sorted
permutation is unique, which the discovery theorem makes explicit.) -/
def sortStrings : List String → List String
  | [] => []
  | a :: as => insertSorted a (sortStrings as)

/-- ASCII lower-casing of a character list, Python's `str.lower` on the
file names at hand. -/
def lowerChars (s : List Char) : List Char := s.map Char.toLower

/-- The discovery filter of lines 176/180:
`filename.lower().endswith(".pdf")`. -/
def isPdfName (n : String) : Bool :=
  listPre ".pdf".data.reverse (lowerChars n.data).reverse

/-- `os.path.join` for the paths at hand. -/
def pyJoin (d n : String) : String :=
  if n.data.head? = some '/' then n
  else if d = "" then n
  else if d.data.getLast? = some '/' then d ++ n
  else d ++ "/" ++ n

/-- The shape of `input_path` as the file system reports it: an existing
file, an existing directory with its entries, or neither. -/
inductive InputPath where
  | file (path : String) : InputPath
  | dir (path : String) (entries : List String) : InputPath
  | missing : InputPath
deriving DecidableEq

/-- File discovery of `main_cli`, lines 175-181: a single file is kept
when its lower-cased name ends in `.pdf`; a directory contributes its
sorted entries whose lower-cased names end in `.pdf`, joined to the
directory path; anything else contributes nothing. -/
def filesToProcess : InputPath → List String
  | .file p => if isPdfName p then [p] else []
  | .dir d entries => ((sortStrings entries).filter isPdfName).map (pyJoin d)
  | .missing => []

/-- The persist loop of lines 194-196: one `json.dumps(entry,
ensure_ascii=False)` plus a newline per record, in order. -/
def writeAll : List PyVal → List Char
  | [] => []
  | r :: rs => dumpVal r ++ '\n' :: writeAll rs

/-- Split on newline characters (pure splitting; a trailing newline
yields a trailing empty segment). -/
def splitNl : List Char → List (List Char)
  | [] => [[]]
  | c :: rest =>
    if c = '\n' then [] :: splitNl rest
    else
      match splitNl rest with
      | [] => [[c]]
      | l :: ls => (c :: l) :: ls

/-- The lines of a file's content, as iterating over the open file
yields them (without the trailing empty segment after a final
newline). -/
def fileLines (s : List Char) : List (List Char) :=
  let ls := splitNl s
  if ls.getLast? = some [] then ls.dropLast else ls

/-- One batch-driver run's surroundings: the input path as discovered,
the remote behaviour for each file, and the output file's prior content
(`Option.none` when it does not exist). -/
structure CliEnv where
  input : InputPath
  perFile : String → ProcEnv
  prevOutput : Option (List Char)

/-- What one `main_cli` run did: the files handed to the processor, the
accumulated records, the output file's resulting content, and which of
the two notices was printed. -/
structure CliResult where
  processedFiles : List String
  allData : List PyVal
  newOutput : Option (List Char)
  warnedNoFiles : Bool
  noticedNoData : Bool
deriving DecidableEq

/-- The processing loop of lines 187-189: each file in order through
`process_single_pdf`, extending `all_data`; divergence or an escaped
exception of any file propagates. -/
def runFiles (pe : String → ProcEnv) : List String → Option (Except PyErr (List PyVal))
  | [] => some (.ok [])
  | f :: rest =>
    match processSinglePdf (pe f) with
    | Option.none => Option.none
    | some out =>
      match out.outcome with
      | .error e => some (.error e)
      | .ok v =>
        match runFiles pe rest with
        | Option.none => Option.none
        | some (.error e) => some (.error e)
        | some (.ok vs) => some (.ok (v ++ vs))

/-- The whole of `main_cli` (lines 165-200): discovery; the no-files
warning and early return (183-185); the per-file loop; and the persist
step (191-200), which appends to an existing output file, creates it
otherwise, and is skipped entirely (with the no-data notice) when no
records accumulated. -/
def mainCli (env : CliEnv) : Option (Except PyErr CliResult) :=
  let files := filesToProcess env.input
  if files.isEmpty then
    some (.ok ⟨[], [], env.prevOutput, true, false⟩)
  else
    match runFiles env.perFile files with
    | Option.none => Option.none
    | some (.error e) => some (.error e)
    | some (.ok allData) =>
      if allData.isEmpty then
        some (.ok ⟨files, allData, env.prevOutput, false, true⟩)
      else
        some (.ok ⟨files, allData,
          some ((env.prevOutput.getD []) ++ writeAll allData), false, false⟩)

/-- Spec-side reading of the first check: `page_number` present and
integer-typed. -/
def pnPasses (kvs : List (String × PyVal)) : Bool :=
  match kvs.lookup "page_number" with
  | some v => pyIsInstInt v
  | Option.none => false

/-- Spec-side reading of the second check: `source_quote` present,
non-empty (truthy) and of length at least 10. -/
def sqPasses (kvs : List (String × PyVal)) : Bool :=
  match kvs.lookup "source_quote" with
  | some v =>
    pyTruthy v &&
      (match pyLen v with
       | some n => decide (10 ≤ n)
       | Option.none => false)
  | Option.none => false

/-- Spec-side reading of the third check: `section` present and
non-empty (truthy). -/
def secPasses (kvs : List (String × PyVal)) : Bool :=
  match kvs.lookup "section" with
  | some v => pyTruthy v
  | Option.none => false

/-- Domain condition under which the length test of the second check
cannot raise: a present, truthy `source_quote` value is sized. -/
def sqSized (kvs : List (String × PyVal)) : Prop :=
  ∀ v, kvs.lookup "source_quote" = some v → pyTruthy v = true → (pyLen v).isSome

/-- Claim C1 as stated, formalized for one candidate mapping: the
validator computes a field list, empty exactly when all three checks
pass, and otherwise naming every failed field. -/
def validatorActsAsSpecified (kvs : List (String × PyVal)) : Prop :=
  ∃ fields : List String,
    checkEntry (.dict kvs) = .ok fields ∧
    (fields = [] ↔ (pnPasses kvs = true ∧ sqPasses kvs = true ∧ secPasses kvs = true)) ∧
    ("page_number" ∈ fields ↔ pnPasses kvs = false) ∧
    ("source_quote (min 10 chars)" ∈ fields ↔ sqPasses kvs = false) ∧
    ("section" ∈ fields ↔ secPasses kvs = false)

/-- A candidate record whose `page_number` holds a boolean. -/
def boolEntry (b : Bool) (q sec : String) : PyVal :=
  .dict [("page_number", .bool b), ("source_quote", .str q), ("section", .str sec)]

/-- A concrete fully valid candidate record, used by witnesses. -/
def recW : PyVal :=
  .dict [("page_number", .int 3), ("source_quote", .str "abcdefghij"),
         ("section", .str "s")]

/-- A second concrete valid record with a non-ASCII section title. -/
def recW2 : PyVal :=
  .dict [("page_number", .int 7), ("source_quote", .str "qrstuvwxyz"),
         ("section", .str "émile")]

/-- A remote environment in which every step succeeds and the generation
answer decodes to `[recW]`. -/
def envW : ProcEnv :=
  { uploadResult := .ok ⟨"files/f1", "PROCESSING"⟩
    fetches := [.ok ⟨"files/f1", "ACTIVE"⟩]
    generateResult :=
      .ok "[\x7b\"page_number\": 3, \"source_quote\": \"abcdefghij\", \"section\": \"s\"\x7d]"
    deleteResult := .ok () }

/-- Like `envW` but decoding to `[recW2]`. -/
def envW2 : ProcEnv :=
  { envW with
    generateResult :=
      .ok "[\x7b\"page_number\": 7, \"source_quote\": \"qrstuvwxyz\", \"section\": \"émile\"\x7d]" }

/-- A remote environment whose upload call raises. -/
def envFailW : ProcEnv :=
  { envW with uploadResult := .error (.other "upload failed") }

/-- A remote environment whose decoded answer holds one fully valid
candidate followed by a bare number. -/
def envMixW : ProcEnv :=
  { envW with
    generateResult :=
      .ok "[\x7b\"page_number\": 3, \"source_quote\": \"abcdefghij\", \"section\": \"s\"\x7d, 5]" }

/-- A batch run over one matching file with `envW` behaviour, no prior
output file. -/
def cliEnvW : CliEnv :=
  { input := .dir "d" ["x.pdf"], perFile := fun _ => envW, prevOutput := Option.none }

/-- A second batch run over a disjoint input against the output of the
first. -/
def cliEnvW2 : CliEnv :=
  { input := .dir "d" ["y.pdf"], perFile := fun _ => envW2,
    prevOutput := some (writeAll [recW]) }

/-- A batch run whose directory holds no PDF entry. -/
def cliEnvEmptyW : CliEnv :=
  { input := .dir "d" ["notes.txt"], perFile := fun _ => envW,
    prevOutput := some ['a', 'b'] }

/-- A batch run over one matching file whose processing fails at upload,
so that zero records accumulate. -/
def cliEnvNoDataW : CliEnv :=
  { input := .dir "d" ["x.pdf"], perFile := fun _ => envFailW,
    prevOutput := some ['a', 'b'] }

/-! ## Validator lemmas and claims C1, C8 -/

theorem anyKey_eq_lookupIsSome (k : String) (kvs : List (String × PyVal)) :
    (kvs.any fun kv => kv.1 == k) = (kvs.lookup k).isSome := by
  induction kvs with
  | nil => rfl
  | cons kv rest ih =>
    by_cases h : kv.1 = k
    · simp [List.lookup, h]
    · have h1 : (kv.1 == k) = false := by simp [h]
      have h2 : (k == kv.1) = false := by simp [Ne.symm h]
      simp [List.lookup, h1, h2, ih]

theorem check1_dict (kvs : List (String × PyVal)) :
    check1 (.dict kvs) = .ok (!pnPasses kvs) := by
  cases h : kvs.lookup "page_number" with
  | none =>
    have ha : (kvs.any fun kv => kv.1 == "page_number") = false := by
      rw [anyKey_eq_lookupIsSome, h]; rfl
    simp [check1, pyContains, pnPasses, ha, h]
  | some v =>
    have ha : (kvs.any fun kv => kv.1 == "page_number") = true := by
      rw [anyKey_eq_lookupIsSome, h]; rfl
    simp [check1, pyContains, pyGet, pnPasses, ha, h]

theorem check3_dict (kvs : List (String × PyVal)) :
    check3 (.dict kvs) = .ok (!secPasses kvs) := by
  cases h : kvs.lookup "section" with
  | none =>
    have ha : (kvs.any fun kv => kv.1 == "section") = false := by
      rw [anyKey_eq_lookupIsSome, h]; rfl
    simp [check3, pyContains, secPasses, ha, h]
  | some v =>
    have ha : (kvs.any fun kv => kv.1 == "section") = true := by
      rw [anyKey_eq_lookupIsSome, h]; rfl
    simp [check3, pyContains, pyGet, secPasses, ha, h]

theorem check2_dict (kvs : List (String × PyVal)) (hs : sqSized kvs) :
    check2 (.dict kvs) = .ok (!sqPasses kvs) := by
  cases h : kvs.lookup "source_quote" with
  | none =>
    have ha : (kvs.any fun kv => kv.1 == "source_quote") = false := by
      rw [anyKey_eq_lookupIsSome, h]; rfl
    simp [check2, pyContains, sqPasses, ha, h]
  | some v =>
    have ha : (kvs.any fun kv => kv.1 == "source_quote") = true := by
      rw [anyKey_eq_lookupIsSome, h]; rfl
    cases ht : pyTruthy v with
    | false => simp [check2, pyContains, pyGet, sqPasses, ha, h, ht]
    | true =>
      have hl : (pyLen v).isSome := hs v h ht
      cases hn : pyLen v with
      | none => rw [hn] at hl; exact absurd hl (by simp)
      | some n =>
        by_cases h10 : 10 ≤ n
        · have : ¬ n < 10 := by omega
          simp [check2, pyContains, pyGet, sqPasses, ha, h, ht, hn, h10, this]
        · have : n < 10 := by omega
          simp [check2, pyContains, pyGet, sqPasses, ha, h, ht, hn, h10, this]

theorem checkEntry_dict (kvs : List (String × PyVal)) (hs : sqSized kvs) :
    checkEntry (.dict kvs) =
      .ok ((if pnPasses kvs then [] else ["page_number"]) ++
           (if sqPasses kvs then [] else ["source_quote (min 10 chars)"]) ++
           (if secPasses kvs then [] else ["section"])) := by
  rw [checkEntry, check1_dict kvs, check2_dict kvs hs, check3_dict kvs]
  cases pnPasses kvs <;> cases sqPasses kvs <;> cases secPasses kvs <;> rfl

/-- Claim C1 (amended): on any candidate mapping whose `source_quote`
value, when present and truthy, is sized (a string, list or dict), the
validator accepts exactly when all three checks pass and otherwise
returns a rejection naming every failed field, not just the first; an
accepted record is kept unchanged. -/
theorem validator_reports_all_failed_fields (kvs : List (String × PyVal))
    (hs : sqSized kvs) :
    validatorActsAsSpecified kvs ∧
    (checkEntry (.dict kvs) = .ok [] →
      validateLoop 0 [.dict kvs] = .ok ([.dict kvs], [])) := by
  constructor
  · refine ⟨(if pnPasses kvs then [] else ["page_number"]) ++
      (if sqPasses kvs then [] else ["source_quote (min 10 chars)"]) ++
      (if secPasses kvs then [] else ["section"]),
      checkEntry_dict kvs hs, ?_, ?_, ?_, ?_⟩ <;>
    · cases pnPasses kvs <;> cases sqPasses kvs <;> cases secPasses kvs <;> decide
  · intro h
    simp [validateLoop, h]

/-- Claim C1 (witness): a record missing `page_number` and with a short
`source_quote` is rejected with both fields named. -/
theorem validator_reports_all_failed_fields_witness :
    sqSized [("source_quote", PyVal.str "short"), ("section", PyVal.str "x")] ∧
    validatorActsAsSpecified
      [("source_quote", PyVal.str "short"), ("section", PyVal.str "x")] :=
  ⟨by intro v hv ht; cases hv; rfl,
   (validator_reports_all_failed_fields
      [("source_quote", PyVal.str "short"), ("section", PyVal.str "x")]
      (by intro v hv ht; cases hv; rfl)).1⟩

/-- Claim C1 (counterexample): on the candidate whose `source_quote` is
the integer 7 (present, truthy, unsized), the validator does not produce
a rejection naming the failed fields: the length test raises a
`TypeError`, so the claim as stated fails on this record. -/
theorem validator_claim_counterexample :
    checkEntry (.dict [("page_number", PyVal.int 1), ("source_quote", PyVal.int 7),
      ("section", PyVal.str "Intro")]) = .error .typeError ∧
    ¬ validatorActsAsSpecified
      [("page_number", PyVal.int 1), ("source_quote", PyVal.int 7),
       ("section", PyVal.str "Intro")] := by
  constructor
  · decide
  · rintro ⟨fields, hf, -⟩
    have hd : checkEntry (.dict [("page_number", PyVal.int 1),
        ("source_quote", PyVal.int 7), ("section", PyVal.str "Intro")]) =
        .error .typeError := by decide
    rw [hd] at hf
    exact absurd hf (by simp)

/-- Claim C8: a candidate whose `page_number` holds a boolean passes the
integer-typed check (Python's `isinstance` counts `bool` as `int`), and
with a valid quote and section the record is accepted unchanged and its
persisted line is exactly its serialization. -/
theorem bool_page_number_accepted (b : Bool) (q sec : String)
    (hq : 10 ≤ q.data.length) (hsec : sec.data ≠ []) :
    pyIsInstInt (.bool b) = true ∧
    checkEntry (boolEntry b q sec) = .ok [] ∧
    validateLoop 0 [boolEntry b q sec] = .ok ([boolEntry b q sec], []) ∧
    writeAll [boolEntry b q sec] = dumpVal (boolEntry b q sec) ++ ['\n'] := by
  have hqe : q.data.isEmpty = false := by
    cases hd : q.data with
    | nil => rw [hd] at hq; simp at hq
    | cons c cs => rfl
  have hse : sec.data.isEmpty = false := by
    cases hd : sec.data with
    | nil => exact absurd hd hsec
    | cons c cs => rfl
  have hs : sqSized [("page_number", PyVal.bool b), ("source_quote", PyVal.str q),
      ("section", PyVal.str sec)] := by
    intro v hv ht
    have h2 : some (PyVal.str q) = some v := hv
    cases h2
    rfl
  have hpn : pnPasses [("page_number", PyVal.bool b), ("source_quote", PyVal.str q),
      ("section", PyVal.str sec)] = true := rfl
  have hsq : sqPasses [("page_number", PyVal.bool b), ("source_quote", PyVal.str q),
      ("section", PyVal.str sec)] = true := by
    show (pyTruthy (PyVal.str q) &&
      (match pyLen (PyVal.str q) with
       | some n => decide (10 ≤ n)
       | Option.none => false)) = true
    simp [pyTruthy, pyLen, hqe]
    exact hq
  have hsc : secPasses [("page_number", PyVal.bool b), ("source_quote", PyVal.str q),
      ("section", PyVal.str sec)] = true := by
    show pyTruthy (PyVal.str sec) = true
    simp [pyTruthy, hse]
  have hce : checkEntry (boolEntry b q sec) = .ok [] := by
    rw [show boolEntry b q sec = .dict [("page_number", PyVal.bool b),
      ("source_quote", PyVal.str q), ("section", PyVal.str sec)] from rfl,
      checkEntry_dict _ hs, hpn, hsq, hsc]
    rfl
  refine ⟨rfl, hce, ?_, rfl⟩
  simp [validateLoop, hce]

/-- Claim C8 (witness): the concrete record with `page_number = True`. -/
theorem bool_page_number_accepted_witness :
    pyIsInstInt (.bool true) = true ∧
    checkEntry (boolEntry true "0123456789" "S") = .ok [] ∧
    validateLoop 0 [boolEntry true "0123456789" "S"] =
      .ok ([boolEntry true "0123456789" "S"], []) ∧
    writeAll [boolEntry true "0123456789" "S"] =
      dumpVal (boolEntry true "0123456789" "S") ++ ['\n'] :=
  bool_page_number_accepted true "0123456789" "S" (by decide) (by decide)

/-! ## Document-processor lemmas and claims C2, C3, C9 -/

theorem cleanup_fst (env : ProcEnv) : (cleanupStep env).1 = .ok () := by
  cases hu : env.uploadResult with
  | error e => simp [cleanupStep, hu]
  | ok f =>
    cases hd : env.deleteResult with
    | error e => simp [cleanupStep, hu, hd, swallow]
    | ok u => simp [cleanupStep, hu, hd, swallow]

theorem processSinglePdf_error_case (env : ProcEnv) (e : PyErr)
    (h : tryBody env = some (.error e)) :
    processSinglePdf env = some ⟨.ok [], (cleanupStep env).2, some e⟩ := by
  rcases hc : cleanupStep env with ⟨fst, n⟩
  have hf := cleanup_fst env
  rw [hc] at hf
  simp at hf
  subst hf
  simp [processSinglePdf, h, hc]

theorem processSinglePdf_ok_case (env : ProcEnv) (v : List PyVal)
    (h : tryBody env = some (.ok v)) :
    processSinglePdf env = some ⟨.ok v, (cleanupStep env).2, Option.none⟩ := by
  rcases hc : cleanupStep env with ⟨fst, n⟩
  have hf := cleanup_fst env
  rw [hc] at hf
  simp at hf
  subst hf
  simp [processSinglePdf, h, hc]

theorem tryBody_ok_inv (env : ProcEnv) (v : List PyVal)
    (h : tryBody env = some (.ok v)) :
    ∃ text data entries ws, env.generateResult = .ok text ∧
      pyLoadsC text.data = .ok data ∧ pyIter data = .ok entries ∧
      validateLoop 0 entries = .ok (v, ws) := by
  unfold tryBody at h
  split at h
  · simp at h
  · split at h
    · simp at h
    · simp at h
    · rename_i f f2 hp
      split at h
      · rename_i hst
        split at h
        · simp at h
        · rename_i text hgen
          split at h
          · simp at h
          · rename_i data hdec
            split at h
            · simp at h
            · rename_i entries hit
              split at h
              · simp at h
              · rename_i vd ws hval
                simp at h
                exact ⟨text, data, entries, ws,
                  hgen, hdec, hit, by rw [hval, h]⟩
      · simp at h

theorem validateLoop_error_of_mem :
    ∀ (idx : Nat) (entries : List PyVal) (c : PyVal) (ec : PyErr),
      c ∈ entries → checkEntry c = .error ec →
      ∃ e2, validateLoop idx entries = .error e2 := by
  intro idx entries
  induction entries generalizing idx with
  | nil => intro c ec hc hce; simp at hc
  | cons x rest ih =>
    intro c ec hc hce
    cases hx : checkEntry x with
    | error e => exact ⟨e, by simp [validateLoop, hx]⟩
    | ok fields =>
      rcases List.mem_cons.mp hc with h | h
      · subst h; rw [hce] at hx; exact absurd hx (by simp)
      · obtain ⟨e2, he2⟩ := ih (idx + 1) c ec h hce
        exact ⟨e2, by simp [validateLoop, hx, he2]⟩

theorem checkEntry_error_of_contains (c : PyVal) (e : PyErr)
    (h : pyContains "page_number" c = .error e) : checkEntry c = .error e := by
  simp [checkEntry, check1, h]

/-- Claim C2: whenever `process_single_pdf` terminates, no exception
escapes to the caller: the body's exception is converted to an empty
record list plus a reported message, and a successful body yields
exactly the validated records of the decoded response. -/
theorem processSinglePdf_never_raises (env : ProcEnv) (out : ProcOutcome)
    (h : processSinglePdf env = some out) :
    (∃ v, out.outcome = .ok v) ∧
    (∀ e, tryBody env = some (.error e) →
      out.outcome = .ok [] ∧ out.reported = some e) ∧
    (∀ v, tryBody env = some (.ok v) →
      out.outcome = .ok v ∧ out.reported = Option.none ∧
      ∃ text data entries ws, env.generateResult = .ok text ∧
        pyLoadsC text.data = .ok data ∧ pyIter data = .ok entries ∧
        validateLoop 0 entries = .ok (v, ws)) := by
  cases hb : tryBody env with
  | none =>
    unfold processSinglePdf at h
    rw [hb] at h
    simp at h
  | some bodyRes =>
    cases bodyRes with
    | error e =>
      have := processSinglePdf_error_case env e hb
      rw [this] at h
      simp at h
      subst h
      refine ⟨⟨[], rfl⟩, ?_, ?_⟩
      · intro e2 he2
        simp at he2
        subst he2
        exact ⟨rfl, rfl⟩
      · intro v hv
        simp at hv
    | ok v =>
      have := processSinglePdf_ok_case env v hb
      rw [this] at h
      simp at h
      subst h
      refine ⟨⟨v, rfl⟩, ?_, ?_⟩
      · intro e2 he2
        simp at he2
      · intro v2 hv2
        simp at hv2
        subst hv2
        exact ⟨rfl, rfl, tryBody_ok_inv env v hb⟩

/-- Claim C2 (witness): a fully successful concrete run. -/
theorem processSinglePdf_never_raises_witness :
    ∃ v, (ProcOutcome.mk (.ok [recW]) 1 Option.none).outcome = .ok v :=
  (processSinglePdf_never_raises envW ⟨.ok [recW], 1, Option.none⟩ (by decide)).1

/-- Claim C3: whenever the upload succeeded, every exit path of
`process_single_pdf` makes exactly one remote delete call, and the
result is entirely independent of whether that delete call fails. -/
theorem processSinglePdf_deletes_once (env : ProcEnv) (out : ProcOutcome)
    (f : RemoteFile)
    (hu : env.uploadResult = .ok f) (h : processSinglePdf env = some out) :
    out.deletes = 1 ∧
    ∀ d, processSinglePdf { env with deleteResult := d } = some out := by
  have hn : (cleanupStep env).2 = 1 := by simp [cleanupStep, hu]
  have hcn : ∀ d : Except PyErr Unit,
      (cleanupStep { env with deleteResult := d }).2 = 1 := by
    intro d; simp [cleanupStep, hu]
  cases hb : tryBody env with
  | none =>
    unfold processSinglePdf at h
    rw [hb] at h
    simp at h
  | some bodyRes =>
    cases bodyRes with
    | error e =>
      have h1 := processSinglePdf_error_case env e hb
      rw [h1] at h
      simp at h
      subst h
      refine ⟨hn, ?_⟩
      intro d
      have h2 : tryBody { env with deleteResult := d } = some (.error e) := hb
      have h3 := processSinglePdf_error_case { env with deleteResult := d } e h2
      rw [h3, hcn d, hn]
    | ok v =>
      have h1 := processSinglePdf_ok_case env v hb
      rw [h1] at h
      simp at h
      subst h
      refine ⟨hn, ?_⟩
      intro d
      have h2 : tryBody { env with deleteResult := d } = some (.ok v) := hb
      have h3 := processSinglePdf_ok_case { env with deleteResult := d } v h2
      rw [h3, hcn d, hn]

/-- Claim C3 (witness): the concrete successful run deletes once, and a
failing delete call changes nothing. -/
theorem processSinglePdf_deletes_once_witness :
    (ProcOutcome.mk (.ok [recW]) 1 Option.none).deletes = 1 ∧
    ∀ d, processSinglePdf { envW with deleteResult := d } =
      some ⟨.ok [recW], 1, Option.none⟩ :=
  processSinglePdf_deletes_once envW ⟨.ok [recW], 1, Option.none⟩
    ⟨"files/f1", "PROCESSING"⟩ rfl (by decide)

/-- Claim C9: when the decoded response contains a candidate that does
not support membership testing, validation raises inside the `try`
block, so the whole document yields zero records and every other
candidate — valid ones included — is discarded. -/
theorem nonmapping_candidate_discards_document (env : ProcEnv)
    (out : ProcOutcome) (text : String) (data : PyVal)
    (entries : List PyVal) (c : PyVal)
    (hgen : env.generateResult = .ok text)
    (hdec : pyLoadsC text.data = .ok data)
    (hit : pyIter data = .ok entries)
    (hc : c ∈ entries)
    (hnm : pyContains "page_number" c = .error .typeError)
    (hrun : processSinglePdf env = some out) :
    out.outcome = .ok [] ∧ out.reported.isSome = true := by
  cases hb : tryBody env with
  | none =>
    unfold processSinglePdf at hrun
    rw [hb] at hrun
    simp at hrun
  | some bodyRes =>
    cases bodyRes with
    | error e =>
      have h1 := processSinglePdf_error_case env e hb
      rw [h1] at hrun
      simp at hrun
      subst hrun
      exact ⟨rfl, rfl⟩
    | ok v =>
      exfalso
      obtain ⟨t2, d2, e2, ws, hg2, hd2, hi2, hv2⟩ := tryBody_ok_inv env v hb
      rw [hgen] at hg2
      simp at hg2
      subst hg2
      rw [hdec] at hd2
      simp at hd2
      subst hd2
      rw [hit] at hi2
      simp at hi2
      subst hi2
      obtain ⟨e3, he3⟩ := validateLoop_error_of_mem 0 entries c .typeError hc
        (checkEntry_error_of_contains c .typeError hnm)
      rw [hv2] at he3
      simp at he3

/-- Claim C9 (witness): the decoded array `[recW, 5]` — one fully valid
candidate plus a bare number — yields zero records with a TypeError
reported. -/
theorem nonmapping_candidate_discards_document_witness :
    (ProcOutcome.mk (.ok []) 1 (some .typeError)).outcome = .ok [] ∧
    (ProcOutcome.mk (.ok []) 1 (some .typeError)).reported.isSome = true :=
  nonmapping_candidate_discards_document envMixW ⟨.ok [], 1, some .typeError⟩
    "[\x7b\"page_number\": 3, \"source_quote\": \"abcdefghij\", \"section\": \"s\"\x7d, 5]"
    (.list [recW, .int 5]) [recW, .int 5] (.int 5)
    rfl (by decide) rfl (by decide) rfl (by decide)

/-! ## Batch-driver lemmas and claims C4, C5, C10 -/

/-- Claim C5: when discovery finds no files, the driver warns and stops:
nothing is processed, no records accumulate, and the output file's
content is exactly what it was (or remains nonexistent). -/
theorem mainCli_empty_fileset_no_output (env : CliEnv)
    (h : filesToProcess env.input = []) :
    mainCli env = some (.ok ⟨[], [], env.prevOutput, true, false⟩) := by
  simp [mainCli, h]

/-- Claim C5 (witness): a directory holding only `notes.txt`. -/
theorem mainCli_empty_fileset_no_output_witness :
    mainCli cliEnvEmptyW = some (.ok ⟨[], [], some ['a', 'b'], true, false⟩) :=
  mainCli_empty_fileset_no_output cliEnvEmptyW (by decide)

/-- Claim C10: when at least one file was processed but zero records
accumulated, the persist step is skipped: the output file keeps its
prior content (or stays nonexistent) and the no-data notice is printed
instead of the no-files warning. -/
theorem mainCli_zero_records_no_output (env : CliEnv) (res : CliResult)
    (h : mainCli env = some (.ok res)) (hne : res.processedFiles ≠ [])
    (hz : res.allData = []) :
    res.newOutput = env.prevOutput ∧ res.noticedNoData = true ∧
      res.warnedNoFiles = false := by
  simp only [mainCli] at h
  split at h
  · simp at h
    rw [← h] at hne
    simp at hne
  · split at h
    · simp at h
    · simp at h
    · rename_i allData hrf
      split at h
      · simp at h
        rw [← h]
        exact ⟨rfl, rfl, rfl⟩
      · rename_i hae
        simp at h
        rw [← h] at hz
        simp at hz
        subst hz
        simp at hae

/-- Claim C10 (witness): one matching file whose upload fails, so the
run accumulates nothing and the prior file content survives. -/
theorem mainCli_zero_records_no_output_witness :
    (CliResult.mk ["d/x.pdf"] [] (some ['a', 'b']) false true).newOutput =
      cliEnvNoDataW.prevOutput ∧
    (CliResult.mk ["d/x.pdf"] [] (some ['a', 'b']) false true).noticedNoData = true ∧
    (CliResult.mk ["d/x.pdf"] [] (some ['a', 'b']) false true).warnedNoFiles = false :=
  mainCli_zero_records_no_output cliEnvNoDataW
    ⟨["d/x.pdf"], [], some ['a', 'b'], false, true⟩
    (by decide) (by decide) rfl

theorem insertSorted_perm (a : String) (l : List String) :
    (insertSorted a l).Perm (a :: l) := by
  induction l with
  | nil => exact List.Perm.refl _
  | cons b bs ih =>
    by_cases h : strLeB a b
    · simp [insertSorted, h]
    · simp only [insertSorted, h, if_neg, Bool.false_eq_true, not_false_eq_true]
      exact (ih.cons b).trans (List.Perm.swap a b bs)

theorem sortStrings_perm (l : List String) : (sortStrings l).Perm l := by
  induction l with
  | nil => exact List.Perm.refl _
  | cons a as ih => exact (insertSorted_perm a (sortStrings as)).trans (ih.cons a)

theorem lexLe_total : ∀ xs ys : List Char, lexLe xs ys = true ∨ lexLe ys xs = true
  | [], _ => Or.inl rfl
  | _ :: _, [] => Or.inr rfl
  | x :: xs, y :: ys => by
    rcases Nat.lt_trichotomy x.toNat y.toNat with h | h | h
    · left; simp [lexLe, h]
    · have hnl : ¬ x.toNat < y.toNat := by omega
      have hnr : ¬ y.toNat < x.toNat := by omega
      rcases lexLe_total xs ys with h2 | h2
      · left; simp [lexLe, hnl, h, h2]
      · right; simp [lexLe, hnr, h.symm, h2]
    · right; simp [lexLe, h]

theorem lexLe_trans : ∀ xs ys zs : List Char,
    lexLe xs ys = true → lexLe ys zs = true → lexLe xs zs = true
  | [], _, _, _, _ => rfl
  | _ :: _, [], _, h1, _ => by simp [lexLe] at h1
  | _ :: _, _ :: _, [], _, h2 => by simp [lexLe] at h2
  | x :: xs, y :: ys, z :: zs, h1, h2 => by
    by_cases hxy : x.toNat < y.toNat
    · by_cases hyz : y.toNat < z.toNat
      · have hxz : x.toNat < z.toNat := by omega
        simp [lexLe, hxz]
      · have hy : y.toNat = z.toNat := by
          by_contra hne
          simp [lexLe, hyz, hne] at h2
        have hxz : x.toNat < z.toNat := by omega
        simp [lexLe, hxz]
    · have hx : x.toNat = y.toNat := by
        by_contra hne
        simp [lexLe, hxy, hne] at h1
      have h1b : lexLe xs ys = true := by
        simpa [lexLe, hxy, hx] using h1
      by_cases hyz : y.toNat < z.toNat
      · have hxz : x.toNat < z.toNat := by omega
        simp [lexLe, hxz]
      · have hy : y.toNat = z.toNat := by
          by_contra hne
          simp [lexLe, hyz, hne] at h2
        have h2b : lexLe ys zs = true := by
          simpa [lexLe, hyz, hy] using h2
        have hxz1 : ¬ x.toNat < z.toNat := by omega
        have hxz2 : x.toNat = z.toNat := by omega
        simp [lexLe, hxz1, hxz2, lexLe_trans xs ys zs h1b h2b]

theorem strLeB_trans (a b c : String) (h1 : strLeB a b = true)
    (h2 : strLeB b c = true) : strLeB a c = true :=
  lexLe_trans a.data b.data c.data h1 h2

theorem strLeB_total (a b : String) : strLeB a b = true ∨ strLeB b a = true :=
  lexLe_total a.data b.data

theorem insertSorted_pairwise (a : String) (l : List String)
    (h : l.Pairwise fun x y => strLeB x y = true) :
    (insertSorted a l).Pairwise fun x y => strLeB x y = true := by
  induction l with
  | nil => simp [insertSorted]
  | cons b bs ih =>
    rcases List.pairwise_cons.mp h with ⟨hb, hbs⟩
    by_cases hab : strLeB a b = true
    · simp only [insertSorted, hab, if_pos]
      refine List.pairwise_cons.mpr ⟨?_, h⟩
      intro x hx
      rcases List.mem_cons.mp hx with hxb | hx2
      · rw [hxb]; exact hab
      · exact strLeB_trans a b x hab (hb x hx2)
    · simp only [insertSorted, hab, if_neg, Bool.false_eq_true, not_false_eq_true]
      refine List.pairwise_cons.mpr ⟨?_, ih hbs⟩
      intro x hx
      have hx2 := (insertSorted_perm a bs).mem_iff.mp hx
      rcases List.mem_cons.mp hx2 with hxa | hx3
      · rw [hxa]
        rcases strLeB_total a b with h1 | h1
        · exact absurd h1 hab
        · exact h1
      · exact hb x hx3

theorem sortStrings_pairwise (l : List String) :
    (sortStrings l).Pairwise fun x y => strLeB x y = true := by
  induction l with
  | nil => simp [sortStrings]
  | cons a as ih => exact insertSorted_pairwise a (sortStrings as) ih

/-- Claim C4: a single file ending in the PDF extension is the whole
file set; a directory contributes exactly its entries ending in the PDF
extension case-insensitively, in lexicographically sorted order, all
other entries silently ignored. -/
theorem filesToProcess_discovery :
    (∀ p, isPdfName p = true → filesToProcess (.file p) = [p]) ∧
    (∀ d entries, ∃ names : List String,
      filesToProcess (.dir d entries) = names.map (pyJoin d) ∧
      names.Perm (entries.filter isPdfName) ∧
      names.Pairwise fun x y => strLeB x y = true) := by
  constructor
  · intro p hp
    simp [filesToProcess, hp]
  · intro d entries
    refine ⟨(sortStrings entries).filter isPdfName, rfl, ?_, ?_⟩
    · exact (sortStrings_perm entries).filter _
    · exact List.Pairwise.sublist (List.filter_sublist _) (sortStrings_pairwise entries)

/-- Claim C4 (witness): the single-file case and the spec's concrete
directory example `a.pdf`, `B.PDF`, `notes.txt`. -/
theorem filesToProcess_discovery_witness :
    filesToProcess (.file "Manual.PDF") = ["Manual.PDF"] ∧
    filesToProcess (.dir "docs" ["a.pdf", "B.PDF", "notes.txt"]) =
      ["docs/B.PDF", "docs/a.pdf"] :=
  ⟨filesToProcess_discovery.1 "Manual.PDF" (by decide), by decide⟩

/-! ## Serialization round-trip: digit and number lemmas -/

theorem pyInd (motive : PyVal → Prop)
    (h0 : motive .none) (h1 : ∀ b, motive (.bool b)) (h2 : ∀ n, motive (.int n))
    (h3 : ∀ s, motive (.str s))
    (h4 : ∀ xs, (∀ x ∈ xs, motive x) → motive (.list xs))
    (h5 : ∀ kvs, (∀ kv ∈ kvs, motive kv.2) → motive (.dict kvs)) :
    ∀ v, motive v
  | .none => h0
  | .bool b => h1 b
  | .int n => h2 n
  | .str s => h3 s
  | .list xs => h4 xs (fun x hx =>
      have : sizeOf x < sizeOf (PyVal.list xs) := by
        have := List.sizeOf_lt_of_mem hx
        simp only [PyVal.list.sizeOf_spec]
        omega
      pyInd motive h0 h1 h2 h3 h4 h5 x)
  | .dict kvs => h5 kvs (fun kv hkv =>
      have : sizeOf kv.2 < 1 + sizeOf kvs := by
        have h6 := List.sizeOf_lt_of_mem hkv
        obtain ⟨k, v2⟩ := kv
        simp at h6 ⊢
        omega
      pyInd motive h0 h1 h2 h3 h4 h5 kv.2)
termination_by v => sizeOf v

theorem isDigitB_digitChar : ∀ m, m < 10 → isDigitB (digitChar m) = true := by decide

theorem digitChar_toNat : ∀ m, m < 10 → (digitChar m).toNat = 48 + m := by decide

theorem natCharsAux_digits : ∀ fuel n, n < fuel →
    ∀ c ∈ natCharsAux fuel n, isDigitB c = true := by
  intro fuel
  induction fuel with
  | zero => intro n hn; omega
  | succ f ih =>
    intro n hn c hc
    by_cases h10 : n < 10
    · simp [natCharsAux, h10] at hc
      rw [hc]
      exact isDigitB_digitChar n h10
    · simp only [natCharsAux, h10, if_neg, not_false_eq_true] at hc
      rcases List.mem_append.mp hc with h | h
      · have hdiv : n / 10 < n := Nat.div_lt_self (by omega) (by omega)
        exact ih (n / 10) (by omega) c h
      · simp at h
        rw [h]
        exact isDigitB_digitChar (n % 10) (Nat.mod_lt n (by omega))

theorem natCharsAux_ne_nil : ∀ fuel n, n < fuel → natCharsAux fuel n ≠ [] := by
  intro fuel
  induction fuel with
  | zero => intro n hn; omega
  | succ f ih =>
    intro n hn
    by_cases h10 : n < 10
    · simp [natCharsAux, h10]
    · simp only [natCharsAux, h10, if_neg, not_false_eq_true]
      simp

theorem digitsVal_append_one (xs : List Char) (d : Char) :
    digitsVal (xs ++ [d]) = digitsVal xs * 10 + (d.toNat - 48) := by
  simp [digitsVal, List.foldl_append]

theorem digitsVal_natCharsAux : ∀ fuel n, n < fuel →
    digitsVal (natCharsAux fuel n) = n := by
  intro fuel
  induction fuel with
  | zero => intro n hn; omega
  | succ f ih =>
    intro n hn
    by_cases h10 : n < 10
    · simp [natCharsAux, h10, digitsVal]
      rw [digitChar_toNat n h10]
      omega
    · simp only [natCharsAux, h10, if_neg, not_false_eq_true]
      have hdiv : n / 10 < n := Nat.div_lt_self (by omega) (by omega)
      rw [digitsVal_append_one, ih (n / 10) (by omega),
        digitChar_toNat (n % 10) (Nat.mod_lt n (by omega))]
      omega

theorem takeWhile_all_append (p : Char → Bool) : ∀ l r : List Char,
    (∀ c ∈ l, p c = true) → (∀ c cs, r = c :: cs → p c = false) →
    (l ++ r).takeWhile p = l ∧ (l ++ r).dropWhile p = r := by
  intro l
  induction l with
  | nil =>
    intro r hl hr
    cases r with
    | nil => exact ⟨rfl, rfl⟩
    | cons c cs =>
      have := hr c cs rfl
      simp [List.takeWhile_cons, List.dropWhile_cons, this]
  | cons a l2 ih =>
    intro r hl hr
    have ha : p a = true := hl a (by simp)
    obtain ⟨h1, h2⟩ := ih r (fun c hc => hl c (by simp [hc])) hr
    simp [List.takeWhile_cons, List.dropWhile_cons, ha, h1, h2]

theorem delim_head_facts (r : List Char) (h : delimB r = true) :
    ∀ c cs, r = c :: cs →
      isDigitB c = false ∧ c ≠ '.' ∧ c ≠ 'e' ∧ c ≠ 'E' := by
  intro c cs hr
  subst hr
  simp only [delimB, Bool.or_eq_true, decide_eq_true_eq] at h
  rcases h with (h1 | h1) | h1 <;> subst h1 <;>
    exact ⟨by decide, by decide, by decide, by decide⟩

theorem parseNatPart_natChars (n : Nat) (r : List Char)
    (hr : ∀ c cs, r = c :: cs →
      isDigitB c = false ∧ c ≠ '.' ∧ c ≠ 'e' ∧ c ≠ 'E') :
    parseNatPart (natChars n ++ r) = .ok (n, r) := by
  have hd : ∀ c ∈ natChars n, isDigitB c = true :=
    natCharsAux_digits (n + 1) n (by omega)
  have hne : natChars n ≠ [] := natCharsAux_ne_nil (n + 1) n (by omega)
  have hval : digitsVal (natChars n) = n := digitsVal_natCharsAux (n + 1) n (by omega)
  obtain ⟨ht, hdr⟩ := takeWhile_all_append isDigitB (natChars n) r hd
    (fun c cs hc => (hr c cs hc).1)
  have hie : (natChars n).isEmpty = false := by
    cases h : natChars n with
    | nil => exact absurd h hne
    | cons a t => rfl
  simp only [parseNatPart, ht, hdr, hie]
  cases r with
  | nil => simp [hval]
  | cons c cs =>
    obtain ⟨-, h2, h3, h4⟩ := hr c cs rfl
    simp [h2, h3, h4, hval]

theorem parseNumber_intChars (n : Int) (r : List Char)
    (hr : ∀ c cs, r = c :: cs →
      isDigitB c = false ∧ c ≠ '.' ∧ c ≠ 'e' ∧ c ≠ 'E') :
    parseNumber (intChars n ++ r) = .ok (.int n, r) := by
  by_cases hneg : n < 0
  · have he : intChars n = '-' :: natChars (-n).toNat := by simp [intChars, hneg]
    rw [he, List.cons_append]
    simp only [parseNumber, if_pos]
    rw [parseNatPart_natChars _ r hr]
    have h2 : (((-n).toNat : Int)) = -n := Int.toNat_of_nonneg (by omega)
    simp [h2]
  · have hnn : 0 ≤ n := by omega
    have he : intChars n = natChars n.toNat := by simp [intChars, hneg]
    obtain ⟨c, t, hct⟩ : ∃ c t, natChars n.toNat = c :: t := by
      cases h : natChars n.toNat with
      | nil => exact absurd h (natCharsAux_ne_nil _ _ (by omega))
      | cons a t => exact ⟨a, t, rfl⟩
    have hcd : isDigitB c = true := by
      have h3 := natCharsAux_digits (n.toNat + 1) n.toNat (by omega)
      rw [show natCharsAux (n.toNat + 1) n.toNat = natChars n.toNat from rfl, hct] at h3
      exact h3 c (by simp)
    have hcm : c ≠ '-' := by
      intro h4
      rw [h4] at hcd
      exact absurd hcd (by decide)
    rw [he, hct, List.cons_append]
    simp only [parseNumber]
    rw [if_neg hcm, ← List.cons_append, ← hct, parseNatPart_natChars _ r hr]
    simp [Int.toNat_of_nonneg hnn]

/-! ## Serialization round-trip: string-literal lemmas -/

theorem hexVal_hexChar : ∀ m, m < 16 → hexVal (hexChar m) = some m := by decide

theorem psbQuote (r : List Char) : parseStringBody ('"' :: r) = .ok ([], r) := by
  rw [parseStringBody.eq_def]
  simp

theorem psbDefault (c : Char) (r : List Char) (h1 : c ≠ '"') (h2 : c ≠ '\\') :
    parseStringBody (c :: r) =
      (match parseStringBody r with
       | .error err => .error err
       | .ok (s, r2) => .ok (c :: s, r2)) := by
  rw [parseStringBody.eq_def]
  simp [h1, h2]

theorem psbEsc (e u : Char) (r : List Char) (he : e ≠ 'u')
    (hu : unescChar e = some u) :
    parseStringBody ('\\' :: e :: r) =
      (match parseStringBody r with
       | .error err => .error err
       | .ok (s, r2) => .ok (u :: s, r2)) := by
  rw [parseStringBody.eq_def]
  simp [he, hu]

theorem psbEscU (c1 c2 c3 c4 : Char) (x1 x2 x3 x4 : Nat) (r : List Char)
    (hv1 : hexVal c1 = some x1) (hv2 : hexVal c2 = some x2)
    (hv3 : hexVal c3 = some x3) (hv4 : hexVal c4 = some x4)
    (hvalid : Nat.isValidChar (((x1 * 16 + x2) * 16 + x3) * 16 + x4)) :
    parseStringBody ('\\' :: 'u' :: c1 :: c2 :: c3 :: c4 :: r) =
      (match parseStringBody r with
       | .error err => .error err
       | .ok (s, r2) =>
         .ok (Char.ofNat (((x1 * 16 + x2) * 16 + x3) * 16 + x4) :: s, r2)) := by
  rw [parseStringBody.eq_def]
  simp [hv1, hv2, hv3, hv4, hvalid]

theorem parseStringBody_escape : ∀ s r : List Char,
    parseStringBody (escChars s ++ '"' :: r) = .ok (s, r) := by
  intro s
  induction s with
  | nil =>
    intro r
    show parseStringBody ('"' :: r) = .ok ([], r)
    exact psbQuote r
  | cons c cs ih =>
    intro r
    show parseStringBody ((escChar c ++ escChars cs) ++ '"' :: r) = .ok (c :: cs, r)
    rw [List.append_assoc]
    by_cases h1 : c = '"'
    · subst h1
      rw [show escChar '"' = ['\\', '"'] from rfl, List.cons_append, List.cons_append,
        List.nil_append, psbEsc '"' '"' _ (by decide) (by decide), ih r]
    · by_cases h2 : c = '\\'
      · subst h2
        rw [show escChar '\\' = ['\\', '\\'] from rfl, List.cons_append, List.cons_append,
          List.nil_append, psbEsc '\\' '\\' _ (by decide) (by decide), ih r]
      · by_cases h3 : c = '\n'
        · subst h3
          rw [show escChar '\n' = ['\\', 'n'] from rfl, List.cons_append, List.cons_append,
            List.nil_append, psbEsc 'n' '\n' _ (by decide) (by decide), ih r]
        · by_cases h4 : c = '\r'
          · subst h4
            rw [show escChar '\r' = ['\\', 'r'] from rfl, List.cons_append, List.cons_append,
              List.nil_append, psbEsc 'r' '\r' _ (by decide) (by decide), ih r]
          · by_cases h5 : c = '\t'
            · subst h5
              rw [show escChar '\t' = ['\\', 't'] from rfl, List.cons_append, List.cons_append,
                List.nil_append, psbEsc 't' '\t' _ (by decide) (by decide), ih r]
            · by_cases h6 : c = Char.ofNat 8
              · subst h6
                rw [show escChar (Char.ofNat 8) = ['\\', 'b'] from rfl, List.cons_append,
                  List.cons_append, List.nil_append,
                  psbEsc 'b' (Char.ofNat 8) _ (by decide) (by decide), ih r]
              · by_cases h7 : c = Char.ofNat 12
                · subst h7
                  rw [show escChar (Char.ofNat 12) = ['\\', 'f'] from rfl, List.cons_append,
                    List.cons_append, List.nil_append,
                    psbEsc 'f' (Char.ofNat 12) _ (by decide) (by decide), ih r]
                · by_cases h8 : c.toNat < 32
                  · have hesc : escChar c =
                        ['\\', 'u', '0', '0', hexChar (c.toNat / 16), hexChar (c.toNat % 16)] := by
                      simp [escChar, h1, h2, h3, h4, h5, h6, h7, h8]
                    have hdiv : c.toNat / 16 < 16 := by omega
                    have hmod : c.toNat % 16 < 16 := Nat.mod_lt _ (by omega)
                    have hcode :
                        ((0 * 16 + 0) * 16 + c.toNat / 16) * 16 + c.toNat % 16 = c.toNat := by
                      omega
                    have hvalid :
                        Nat.isValidChar (((0 * 16 + 0) * 16 + c.toNat / 16) * 16 + c.toNat % 16) := by
                      rw [hcode]
                      exact Or.inl (by omega)
                    rw [hesc, List.cons_append, List.cons_append, List.cons_append,
                      List.cons_append, List.cons_append, List.cons_append, List.nil_append,
                      psbEscU '0' '0' (hexChar (c.toNat / 16)) (hexChar (c.toNat % 16))
                        0 0 (c.toNat / 16) (c.toNat % 16) _
                        (by decide) (by decide) (hexVal_hexChar _ hdiv) (hexVal_hexChar _ hmod)
                        hvalid,
                      ih r, hcode, Char.ofNat_toNat]
                  · have hesc : escChar c = [c] := by
                      simp [escChar, h1, h2, h3, h4, h5, h6, h7, h8]
                    rw [hesc, List.cons_append, List.nil_append, psbDefault c _ h1 h2, ih r]

/-! ## Serialization round-trip: head, whitespace and size lemmas -/

theorem digit_not_special (c : Char) (h : isDigitB c = true) :
    isJsonWs c = false ∧ c ≠ ']' ∧ c ≠ '}' := by
  have hsp : c ≠ ' ' := fun he => by rw [he] at h; exact absurd h (by decide)
  have htab : c ≠ '\t' := fun he => by rw [he] at h; exact absurd h (by decide)
  have hnl : c ≠ '\n' := fun he => by rw [he] at h; exact absurd h (by decide)
  have hcr : c ≠ '\r' := fun he => by rw [he] at h; exact absurd h (by decide)
  have hrb : c ≠ ']' := fun he => by rw [he] at h; exact absurd h (by decide)
  have hcb : c ≠ '}' := fun he => by rw [he] at h; exact absurd h (by decide)
  exact ⟨by simp [isJsonWs, hsp, htab, hnl, hcr], hrb, hcb⟩

theorem natChars_head (n : Nat) :
    ∃ c t, natChars n = c :: t ∧ isDigitB c = true := by
  cases h : natChars n with
  | nil => exact absurd h (natCharsAux_ne_nil (n + 1) n (by omega))
  | cons c t =>
    refine ⟨c, t, rfl, ?_⟩
    have h2 := natCharsAux_digits (n + 1) n (by omega)
    rw [show natCharsAux (n + 1) n = natChars n from rfl, h] at h2
    exact h2 c (by simp)

theorem dump_head : ∀ v : PyVal, ∃ c t, dumpVal v = c :: t ∧
    isJsonWs c = false ∧ c ≠ ']' ∧ c ≠ '}' := by
  intro v
  cases v with
  | none => exact ⟨'n', _, rfl, by decide, by decide, by decide⟩
  | bool b =>
    cases b with
    | false => exact ⟨'f', _, rfl, by decide, by decide, by decide⟩
    | true => exact ⟨'t', _, rfl, by decide, by decide, by decide⟩
  | int n =>
    by_cases hn : n < 0
    · refine ⟨'-', natChars (-n).toNat, ?_, by decide, by decide, by decide⟩
      simp [dumpVal, intChars, hn]
    · obtain ⟨c, t, hct, hd⟩ := natChars_head n.toNat
      obtain ⟨hws, h1, h2⟩ := digit_not_special c hd
      refine ⟨c, t, ?_, hws, h1, h2⟩
      simp [dumpVal, intChars, hn, hct]
  | str s => exact ⟨'"', _, rfl, by decide, by decide, by decide⟩
  | list xs => exact ⟨'[', _, rfl, by decide, by decide, by decide⟩
  | dict kvs => exact ⟨'{', _, rfl, by decide, by decide, by decide⟩

theorem skipWs_cons_of_not (c : Char) (t : List Char) (h : isJsonWs c = false) :
    skipWs (c :: t) = c :: t := by
  simp [skipWs, h]

theorem skipWs_dump_append (v : PyVal) (r : List Char) :
    skipWs (dumpVal v ++ r) = dumpVal v ++ r := by
  obtain ⟨c, t, hct, hws, -, -⟩ := dump_head v
  rw [hct, List.cons_append, skipWs_cons_of_not c _ hws]

theorem hexChar_ne_nl : ∀ m, m < 16 → hexChar m ≠ '\n' := by decide

theorem escChar_no_nl (c : Char) : '\n' ∉ escChar c := by
  unfold escChar
  split_ifs with h1 h2 h3 h4 h5 h6 h7 h8
  · decide
  · decide
  · decide
  · decide
  · decide
  · decide
  · decide
  · have hd : hexChar (c.toNat / 16) ≠ '\n' := hexChar_ne_nl _ (by omega)
    have hm : hexChar (c.toNat % 16) ≠ '\n' := hexChar_ne_nl _ (Nat.mod_lt _ (by omega))
    simp [hd.symm, hm.symm]
  · simp
    intro he
    rw [he] at h3
    exact h3 rfl

theorem escChars_no_nl : ∀ s : List Char, '\n' ∉ escChars s := by
  intro s
  induction s with
  | nil => simp [escChars]
  | cons c cs ih =>
    simp only [escChars]
    intro h
    rcases List.mem_append.mp h with h | h
    · exact escChar_no_nl c h
    · exact ih h

theorem natChars_no_nl (n : Nat) : '\n' ∉ natChars n := by
  intro h
  have := natCharsAux_digits (n + 1) n (by omega) '\n' h
  exact absurd this (by decide)

theorem intChars_no_nl (n : Int) : '\n' ∉ intChars n := by
  unfold intChars
  split_ifs with h
  · intro hm
    rcases List.mem_cons.mp hm with h2 | h2
    · exact absurd h2.symm (by decide)
    · exact natChars_no_nl _ h2
  · exact natChars_no_nl _

theorem dumpItems_no_nl : ∀ xs : List PyVal,
    (∀ x ∈ xs, '\n' ∉ dumpVal x) → '\n' ∉ dumpItems xs := by
  intro xs
  induction xs with
  | nil => intro h; simp [dumpItems]
  | cons x t ih =>
    intro h
    cases t with
    | nil =>
      show '\n' ∉ dumpItems [x]
      rw [show dumpItems [x] = dumpVal x from rfl]
      exact h x (by simp)
    | cons y t2 =>
      rw [show dumpItems (x :: y :: t2) = dumpVal x ++ ',' :: ' ' :: dumpItems (y :: t2)
        from rfl]
      intro hm
      rcases List.mem_append.mp hm with h2 | h2
      · exact h x (by simp) h2
      · rcases List.mem_cons.mp h2 with h3 | h3
        · exact absurd h3.symm (by decide)
        · rcases List.mem_cons.mp h3 with h4 | h4
          · exact absurd h4.symm (by decide)
          · exact ih (fun z hz => h z (by simp [hz])) h4

theorem dumpPair_no_nl (kv : String × PyVal) (h : '\n' ∉ dumpVal kv.2) :
    '\n' ∉ dumpPair kv := by
  obtain ⟨k, v⟩ := kv
  rw [show dumpPair (k, v) = '"' :: (escChars k.data ++ '"' :: ':' :: ' ' :: dumpVal v)
    from rfl]
  intro hm
  rcases List.mem_cons.mp hm with h2 | h2
  · exact absurd h2.symm (by decide)
  · rcases List.mem_append.mp h2 with h3 | h3
    · exact escChars_no_nl _ h3
    · rcases List.mem_cons.mp h3 with h4 | h4
      · exact absurd h4.symm (by decide)
      · rcases List.mem_cons.mp h4 with h5 | h5
        · exact absurd h5.symm (by decide)
        · rcases List.mem_cons.mp h5 with h6 | h6
          · exact absurd h6.symm (by decide)
          · exact h h6

theorem dumpPairs_no_nl : ∀ kvs : List (String × PyVal),
    (∀ kv ∈ kvs, '\n' ∉ dumpVal kv.2) → '\n' ∉ dumpPairs kvs := by
  intro kvs
  induction kvs with
  | nil => intro h; simp [dumpPairs]
  | cons kv t ih =>
    intro h
    cases t with
    | nil =>
      rw [show dumpPairs [kv] = dumpPair kv from rfl]
      exact dumpPair_no_nl kv (h kv (by simp))
    | cons kv2 t2 =>
      rw [show dumpPairs (kv :: kv2 :: t2) = dumpPair kv ++ ',' :: ' ' :: dumpPairs (kv2 :: t2)
        from rfl]
      intro hm
      rcases List.mem_append.mp hm with h2 | h2
      · exact dumpPair_no_nl kv (h kv (by simp)) h2
      · rcases List.mem_cons.mp h2 with h3 | h3
        · exact absurd h3.symm (by decide)
        · rcases List.mem_cons.mp h3 with h4 | h4
          · exact absurd h4.symm (by decide)
          · exact ih (fun z hz => h z (by simp [hz])) h4

theorem dump_no_nl : ∀ v : PyVal, '\n' ∉ dumpVal v := by
  intro v
  induction v using pyInd with
  | h0 => decide
  | h1 b => cases b <;> decide
  | h2 n => exact intChars_no_nl n
  | h3 s =>
    rw [show dumpVal (.str s) = '"' :: (escChars s.data ++ ['"']) from rfl]
    intro hm
    rcases List.mem_cons.mp hm with h2 | h2
    · exact absurd h2.symm (by decide)
    · rcases List.mem_append.mp h2 with h3 | h3
      · exact escChars_no_nl _ h3
      · simp at h3
  | h4 xs ih =>
    rw [show dumpVal (.list xs) = '[' :: (dumpItems xs ++ [']']) from rfl]
    intro hm
    rcases List.mem_cons.mp hm with h2 | h2
    · exact absurd h2.symm (by decide)
    · rcases List.mem_append.mp h2 with h3 | h3
      · exact dumpItems_no_nl xs ih h3
      · simp at h3
  | h5 kvs ih =>
    rw [show dumpVal (.dict kvs) = '{' :: (dumpPairs kvs ++ ['}']) from rfl]
    intro hm
    rcases List.mem_cons.mp hm with h2 | h2
    · exact absurd h2.symm (by decide)
    · rcases List.mem_append.mp h2 with h3 | h3
      · exact dumpPairs_no_nl kvs ih h3
      · simp at h3

theorem strMk_data (s : String) : String.mk s.data = s := rfl

theorem pySize_pos : ∀ v : PyVal, 1 ≤ pySize v := by
  intro v
  cases v <;> simp [pySize]

theorem dump_ne_nil (v : PyVal) : dumpVal v ≠ [] := by
  obtain ⟨c, t, hct, -, -, -⟩ := dump_head v
  rw [hct]
  simp

theorem dumpItems_size : ∀ xs : List PyVal,
    (∀ x ∈ xs, pySize x ≤ (dumpVal x).length) →
    pyItemsSize xs ≤ (dumpItems xs).length + 1 := by
  intro xs
  induction xs with
  | nil => intro h; simp [pyItemsSize, dumpItems]
  | cons x t ih =>
    intro h
    have h1 := h x (by simp)
    cases t with
    | nil =>
      rw [show dumpItems [x] = dumpVal x from rfl,
        show pyItemsSize [x] = pySize x + pyItemsSize [] + 1 from rfl,
        show pyItemsSize ([] : List PyVal) = 0 from rfl]
      omega
    | cons y t2 =>
      rw [show dumpItems (x :: y :: t2) = dumpVal x ++ ',' :: ' ' :: dumpItems (y :: t2)
          from rfl,
        show pyItemsSize (x :: y :: t2) = pySize x + pyItemsSize (y :: t2) + 1 from rfl]
      have h2 := ih (fun z hz => h z (by simp [hz]))
      rw [List.length_append, List.length_cons, List.length_cons]
      omega

theorem dumpPair_len (kv : String × PyVal) :
    (dumpPair kv).length = (escChars kv.1.data).length + (dumpVal kv.2).length + 4 := by
  obtain ⟨k, v⟩ := kv
  rw [show dumpPair (k, v) = '"' :: (escChars k.data ++ '"' :: ':' :: ' ' :: dumpVal v)
    from rfl]
  simp [List.length_append]
  omega

theorem dumpPairs_size : ∀ kvs : List (String × PyVal),
    (∀ kv ∈ kvs, pySize kv.2 ≤ (dumpVal kv.2).length) →
    pyPairsSize kvs ≤ (dumpPairs kvs).length + 1 := by
  intro kvs
  induction kvs with
  | nil => intro h; simp [pyPairsSize, dumpPairs]
  | cons kv t ih =>
    intro h
    have h1 := h kv (by simp)
    have hl := dumpPair_len kv
    cases t with
    | nil =>
      rw [show dumpPairs [kv] = dumpPair kv from rfl,
        show pyPairsSize [kv] = pySize kv.2 + pyPairsSize [] + 1 from rfl,
        show pyPairsSize ([] : List (String × PyVal)) = 0 from rfl]
      omega
    | cons kv2 t2 =>
      rw [show dumpPairs (kv :: kv2 :: t2) = dumpPair kv ++ ',' :: ' ' :: dumpPairs (kv2 :: t2)
          from rfl,
        show pyPairsSize (kv :: kv2 :: t2) = pySize kv.2 + pyPairsSize (kv2 :: t2) + 1
          from rfl]
      have h2 := ih (fun z hz => h z (by simp [hz]))
      rw [List.length_append, List.length_cons, List.length_cons]
      omega

theorem pySize_le_dumpLen : ∀ v : PyVal, pySize v ≤ (dumpVal v).length := by
  intro v
  induction v using pyInd with
  | h0 => decide
  | h1 b => cases b <;> decide
  | h2 n =>
    obtain ⟨c, t, hct, -, -, -⟩ := dump_head (.int n)
    rw [show pySize (.int n) = 1 from rfl, hct, List.length_cons]
    omega
  | h3 s =>
    rw [show pySize (.str s) = 1 from rfl,
      show dumpVal (.str s) = '"' :: (escChars s.data ++ ['"']) from rfl,
      List.length_cons]
    omega
  | h4 xs ih =>
    rw [show pySize (.list xs) = pyItemsSize xs + 1 from rfl,
      show dumpVal (.list xs) = '[' :: (dumpItems xs ++ [']']) from rfl,
      List.length_cons, List.length_append]
    have := dumpItems_size xs ih
    simp
    omega
  | h5 kvs ih =>
    rw [show pySize (.dict kvs) = pyPairsSize kvs + 1 from rfl,
      show dumpVal (.dict kvs) = '{' :: (dumpPairs kvs ++ ['}']) from rfl,
      List.length_cons, List.length_append]
    have := dumpPairs_size kvs ih
    simp
    omega

theorem setKV_append (k : String) (v : PyVal) : ∀ acc : List (String × PyVal),
    (∀ kw ∈ acc, kw.1 ≠ k) → setKV acc k v = acc ++ [(k, v)] := by
  intro acc
  induction acc with
  | nil => intro h; rfl
  | cons kw t ih =>
    intro h
    have h1 : kw.1 ≠ k := h kw (by simp)
    rw [show setKV (kw :: t) k v =
        (if kw.1 = k then (k, v) :: t else kw :: setKV t k v) from rfl,
      if_neg h1, ih (fun z hz => h z (by simp [hz]))]
    simp

theorem nodupKeys_facts (kv : String × PyVal) (t : List (String × PyVal))
    (h : nodupKeys (kv :: t) = true) :
    (∀ kw ∈ t, kw.1 ≠ kv.1) ∧ nodupKeys t = true := by
  rw [show nodupKeys (kv :: t) =
      ((!(t.any fun kw => kw.1 == kv.1)) && nodupKeys t) from rfl] at h
  rw [Bool.and_eq_true] at h
  obtain ⟨h1, h2⟩ := h
  refine ⟨?_, h2⟩
  intro kw hkw he
  rw [Bool.not_eq_true'] at h1
  have h3 : (t.any fun kw => kw.1 == kv.1) = true :=
    List.any_eq_true.mpr ⟨kw, hkw, by simp [he]⟩
  rw [h3] at h1
  exact absurd h1 (by decide)

theorem pyDictOf_aux : ∀ kvs acc : List (String × PyVal),
    nodupKeys kvs = true →
    (∀ kv ∈ kvs, ∀ kw ∈ acc, kw.1 ≠ kv.1) →
    List.foldl (fun a kv => setKV a kv.1 kv.2) acc kvs = acc ++ kvs := by
  intro kvs
  induction kvs with
  | nil => intro acc h1 h2; simp
  | cons kv t ih =>
    intro acc h1 h2
    obtain ⟨hk, ht⟩ := nodupKeys_facts kv t h1
    have hcond : ∀ kv2 ∈ t, ∀ kw ∈ acc ++ [(kv.1, kv.2)], kw.1 ≠ kv2.1 := by
      intro kv2 hkv2 kw hkw
      rcases List.mem_append.mp hkw with h3 | h3
      · exact h2 kv2 (by simp [hkv2]) kw h3
      · simp at h3
        rw [h3]
        exact fun he => (hk kv2 hkv2) he.symm
    rw [List.foldl_cons,
      setKV_append kv.1 kv.2 acc (fun kw hkw => h2 kv (by simp) kw hkw),
      ih (acc ++ [(kv.1, kv.2)]) ht hcond]
    simp

theorem pyDictOf_id (kvs : List (String × PyVal)) (h : nodupKeys kvs = true) :
    pyDictOf kvs = kvs := by
  unfold pyDictOf
  rw [pyDictOf_aux kvs [] h (by intro kv hkv kw hkw; simp at hkw)]
  simp

theorem pyItemsWf_mem : ∀ xs : List PyVal, pyItemsWf xs = true →
    (∀ x ∈ xs, pyWf x = true) ∧ (∀ t, xs = t → pyItemsWf t = true) := by
  intro xs
  induction xs with
  | nil => intro h; exact ⟨by simp, fun t ht => ht ▸ h⟩
  | cons x t ih =>
    intro h
    rw [show pyItemsWf (x :: t) = (pyWf x && pyItemsWf t) from rfl,
      Bool.and_eq_true] at h
    obtain ⟨h1, h2⟩ := h
    refine ⟨?_, ?_⟩
    · intro z hz
      rcases List.mem_cons.mp hz with h3 | h3
      · rw [h3]; exact h1
      · exact (ih h2).1 z h3
    · intro t2 ht2
      rw [← ht2, show pyItemsWf (x :: t) = (pyWf x && pyItemsWf t) from rfl]
      simp [h1, h2]

theorem pyPairsWf_mem : ∀ kvs : List (String × PyVal), pyPairsWf kvs = true →
    ∀ kv ∈ kvs, pyWf kv.2 = true := by
  intro kvs
  induction kvs with
  | nil => intro h kv hkv; simp at hkv
  | cons kv t ih =>
    intro h z hz
    rw [show pyPairsWf (kv :: t) = (pyWf kv.2 && pyPairsWf t) from rfl,
      Bool.and_eq_true] at h
    obtain ⟨h1, h2⟩ := h
    rcases List.mem_cons.mp hz with h3 | h3
    · rw [h3]; exact h1
    · exact ih h2 z h3

theorem skipWs_space (t : List Char) : skipWs (' ' :: t) = skipWs t := by
  simp [skipWs, isJsonWs]

theorem dumpItems_head (x : PyVal) (xs2 : List PyVal) :
    ∃ c t, dumpItems (x :: xs2) = c :: t ∧ isJsonWs c = false ∧ c ≠ ']' ∧ c ≠ '}' := by
  obtain ⟨c, t, hct, hw, h1, h2⟩ := dump_head x
  cases xs2 with
  | nil => exact ⟨c, t, by rw [show dumpItems [x] = dumpVal x from rfl, hct], hw, h1, h2⟩
  | cons y t2 =>
    refine ⟨c, t ++ ',' :: ' ' :: dumpItems (y :: t2), ?_, hw, h1, h2⟩
    rw [show dumpItems (x :: y :: t2) = dumpVal x ++ ',' :: ' ' :: dumpItems (y :: t2)
      from rfl, hct, List.cons_append]

theorem dumpPairs_head (kv : String × PyVal) (t : List (String × PyVal)) :
    ∃ s, dumpPairs (kv :: t) = '"' :: s := by
  cases t with
  | nil =>
    obtain ⟨k, v⟩ := kv
    exact ⟨_, rfl⟩
  | cons kv2 t2 =>
    obtain ⟨k, v⟩ := kv
    rw [show dumpPairs ((k, v) :: kv2 :: t2) =
      dumpPair (k, v) ++ ',' :: ' ' :: dumpPairs (kv2 :: t2) from rfl]
    exact ⟨_, rfl⟩

theorem skipWs_dumpItems (x : PyVal) (xs2 : List PyVal) (r : List Char) :
    skipWs (dumpItems (x :: xs2) ++ r) = dumpItems (x :: xs2) ++ r := by
  obtain ⟨c, t, hct, hw, -, -⟩ := dumpItems_head x xs2
  rw [hct, List.cons_append, skipWs_cons_of_not c _ hw]

theorem skipWs_dumpPairs (kv : String × PyVal) (t : List (String × PyVal)) (r : List Char) :
    skipWs (dumpPairs (kv :: t) ++ r) = dumpPairs (kv :: t) ++ r := by
  obtain ⟨s, hs⟩ := dumpPairs_head kv t
  rw [hs, List.cons_append, skipWs_cons_of_not _ _ (by decide)]

/-! ## Serialization round-trip: the main induction -/

theorem intChars_head (n : Int) :
    ∃ c t, intChars n = c :: t ∧ (isDigitB c = true ∨ c = '-') := by
  unfold intChars
  split_ifs with hn
  · exact ⟨'-', _, rfl, Or.inr rfl⟩
  · obtain ⟨c, t, h1, h2⟩ := natChars_head n.toNat
    exact ⟨c, t, h1, Or.inl h2⟩

theorem parseVal_quote (f : Nat) (X : List Char) :
    parseVal (f + 1) ('"' :: X) =
      (match parseStringBody X with
       | .error e => .error e
       | .ok (s2, r2) => .ok (.str (String.mk s2), r2)) := rfl

theorem parseVal_number (f : Nat) (c : Char) (rest : List Char)
    (h : (isDigitB c || c = '-') = true) :
    parseVal (f + 1) (c :: rest) = parseNumber (c :: rest) := by
  rw [parseVal.eq_def]
  simp [h]

theorem parseVal_bracket (f : Nat) (c : Char) (t : List Char)
    (hw : isJsonWs c = false) (hne : c ≠ ']') :
    parseVal (f + 1) ('[' :: c :: t) =
      (match parseItems f (c :: t) with
       | .error e => .error e
       | .ok (xs, r3) => .ok (.list xs, r3)) := by
  rw [parseVal.eq_def]
  have h0 : isDigitB '[' = false := by decide
  simp [skipWs_cons_of_not c t hw, hne, h0]

theorem parseVal_brace (f : Nat) (c : Char) (t : List Char)
    (hw : isJsonWs c = false) (hne : c ≠ '}') :
    parseVal (f + 1) ('{' :: c :: t) =
      (match parseMembers f (c :: t) with
       | .error e => .error e
       | .ok (kvs, r3) => .ok (.dict (pyDictOf kvs), r3)) := by
  rw [parseVal.eq_def]
  have h0 : isDigitB '{' = false := by decide
  simp [skipWs_cons_of_not c t hw, hne, h0]

theorem parseItems_succ (f : Nat) (input : List Char) :
    parseItems (f + 1) input =
      (match parseVal f input with
       | .error e => .error e
       | .ok (v, rest) =>
         match skipWs rest with
         | ',' :: r2 =>
           (match parseItems f (skipWs r2) with
            | .error e => .error e
            | .ok (xs, r3) => .ok (v :: xs, r3))
         | ']' :: r2 => .ok ([v], r2)
         | _ => .error PyErr.jsonDecodeError) := rfl

theorem parseMembers_quote (f : Nat) (X : List Char) :
    parseMembers (f + 1) ('"' :: X) =
      (match parseStringBody X with
       | .error e => .error e
       | .ok (k2, r1) =>
         match skipWs r1 with
         | ':' :: r2 =>
           (match parseVal f (skipWs r2) with
            | .error e => .error e
            | .ok (v, r3) =>
              match skipWs r3 with
              | ',' :: r4 =>
                (match parseMembers f (skipWs r4) with
                 | .error e => .error e
                 | .ok (kvs, r5) => .ok ((String.mk k2, v) :: kvs, r5))
              | '}' :: r4 => .ok ([(String.mk k2, v)], r4)
              | _ => .error PyErr.jsonDecodeError)
         | _ => .error PyErr.jsonDecodeError) := rfl

theorem parse_dump_mutual : ∀ fuel : Nat,
    (∀ v : PyVal, pyWf v = true → pySize v ≤ fuel → ∀ r : List Char, delimB r = true →
      parseVal fuel (dumpVal v ++ r) = .ok (v, r)) ∧
    (∀ xs : List PyVal, pyItemsWf xs = true → xs ≠ [] → pyItemsSize xs ≤ fuel →
      ∀ r : List Char, parseItems fuel (dumpItems xs ++ ']' :: r) = .ok (xs, r)) ∧
    (∀ kvs : List (String × PyVal), pyPairsWf kvs = true → kvs ≠ [] →
      pyPairsSize kvs ≤ fuel →
      ∀ r : List Char, parseMembers fuel (dumpPairs kvs ++ '}' :: r) = .ok (kvs, r)) := by
  intro fuel
  induction fuel with
  | zero =>
    refine ⟨?_, ?_, ?_⟩
    · intro v hwf hsz
      have := pySize_pos v
      omega
    · intro xs hwf hne hsz
      cases xs with
      | nil => exact absurd rfl hne
      | cons x t =>
        rw [show pyItemsSize (x :: t) = pySize x + pyItemsSize t + 1 from rfl] at hsz
        omega
    · intro kvs hwf hne hsz
      cases kvs with
      | nil => exact absurd rfl hne
      | cons kv t =>
        rw [show pyPairsSize (kv :: t) = pySize kv.2 + pyPairsSize t + 1 from rfl] at hsz
        omega
  | succ f ih =>
    obtain ⟨ihP, ihQ, ihR⟩ := ih
    refine ⟨?_, ?_, ?_⟩
    · -- values
      intro v hwf hsz r hdel
      cases v with
      | none => rfl
      | bool b => cases b <;> rfl
      | int n =>
        rw [show dumpVal (.int n) = intChars n from rfl]
        obtain ⟨c, t, hct, hcd⟩ := intChars_head n
        have hcond : (isDigitB c || c = '-') = true := by
          rcases hcd with h | h <;> simp [h]
        rw [hct, List.cons_append, parseVal_number f c _ hcond, ← List.cons_append,
          ← hct]
        exact parseNumber_intChars n r (delim_head_facts r hdel)
      | str s =>
        rw [show dumpVal (.str s) = '"' :: (escChars s.data ++ ['"']) from rfl,
          List.cons_append, List.append_assoc, List.singleton_append,
          parseVal_quote, parseStringBody_escape s.data r]
      | list xs =>
        cases xs with
        | nil => rfl
        | cons x xs2 =>
          rw [show dumpVal (.list (x :: xs2)) = '[' :: (dumpItems (x :: xs2) ++ [']'])
              from rfl,
            List.cons_append, List.append_assoc, List.singleton_append]
          obtain ⟨c, t, hct, hw, hrb, -⟩ := dumpItems_head x xs2
          rw [hct, List.cons_append, parseVal_bracket f c _ hw hrb, ← List.cons_append,
            ← hct]
          rw [show pyWf (.list (x :: xs2)) = pyItemsWf (x :: xs2) from rfl] at hwf
          rw [show pySize (.list (x :: xs2)) = pyItemsSize (x :: xs2) + 1 from rfl] at hsz
          rw [ihQ (x :: xs2) hwf (by simp) (by omega) r]
      | dict kvs =>
        cases kvs with
        | nil => rfl
        | cons kv t =>
          rw [show dumpVal (.dict (kv :: t)) = '{' :: (dumpPairs (kv :: t) ++ ['}'])
              from rfl,
            List.cons_append, List.append_assoc, List.singleton_append]
          obtain ⟨s2, hs⟩ := dumpPairs_head kv t
          rw [hs, List.cons_append, parseVal_brace f '"' _ (by decide) (by decide),
            ← List.cons_append, ← hs]
          rw [show pyWf (.dict (kv :: t)) = (nodupKeys (kv :: t) && pyPairsWf (kv :: t))
              from rfl, Bool.and_eq_true] at hwf
          rw [show pySize (.dict (kv :: t)) = pyPairsSize (kv :: t) + 1 from rfl] at hsz
          rw [ihR (kv :: t) hwf.2 (by simp) (by omega) r]
          simp [pyDictOf_id _ hwf.1]
    · -- array items
      intro xs hwf hne hsz r
      cases xs with
      | nil => exact absurd rfl hne
      | cons x t =>
        rw [show pyItemsWf (x :: t) = (pyWf x && pyItemsWf t) from rfl,
          Bool.and_eq_true] at hwf
        rw [show pyItemsSize (x :: t) = pySize x + pyItemsSize t + 1 from rfl] at hsz
        rw [parseItems_succ]
        cases t with
        | nil =>
          rw [show dumpItems [x] = dumpVal x from rfl,
            ihP x hwf.1 (by omega) (']' :: r) rfl]
          rfl
        | cons y t2 =>
          rw [show dumpItems (x :: y :: t2) = dumpVal x ++ ',' :: ' ' :: dumpItems (y :: t2)
              from rfl,
            List.append_assoc, List.cons_append, List.cons_append,
            ihP x hwf.1 (by omega) (',' :: ' ' :: (dumpItems (y :: t2) ++ ']' :: r)) rfl]
          show (match parseItems f (skipWs (' ' :: (dumpItems (y :: t2) ++ ']' :: r))) with
                | Except.error e => Except.error e
                | Except.ok (xs2, r3) => (Except.ok (x :: xs2, r3) :
                    Except PyErr (List PyVal × List Char))) = Except.ok (x :: y :: t2, r)
          rw [skipWs_space, skipWs_dumpItems,
            ihQ (y :: t2) hwf.2 (by simp)
              (by
                have := pySize_pos x
                omega) r]
    · -- object members
      intro kvs hwf hne hsz r
      cases kvs with
      | nil => exact absurd rfl hne
      | cons kv t =>
        obtain ⟨k, v⟩ := kv
        rw [show pyPairsWf ((k, v) :: t) = (pyWf v && pyPairsWf t) from rfl,
          Bool.and_eq_true] at hwf
        rw [show pyPairsSize ((k, v) :: t) = pySize v + pyPairsSize t + 1
          from rfl] at hsz
        cases t with
        | nil =>
          rw [show dumpPairs [(k, v)] =
              '"' :: (escChars k.data ++ '"' :: ':' :: ' ' :: dumpVal v) from rfl,
            List.cons_append, List.append_assoc, List.cons_append, List.cons_append,
            List.cons_append, parseMembers_quote,
            parseStringBody_escape k.data (':' :: ' ' :: (dumpVal v ++ '}' :: r))]
          show (match parseVal f (skipWs (' ' :: (dumpVal v ++ '}' :: r))) with
                | Except.error e => (Except.error e :
                    Except PyErr (List (String × PyVal) × List Char))
                | Except.ok (v2, r3) =>
                  match skipWs r3 with
                  | ',' :: r4 =>
                    (match parseMembers f (skipWs r4) with
                     | Except.error e => Except.error e
                     | Except.ok (kvs2, r5) => Except.ok ((String.mk k.data, v2) :: kvs2, r5))
                  | '}' :: r4 => Except.ok ([(String.mk k.data, v2)], r4)
                  | _ => Except.error PyErr.jsonDecodeError) = Except.ok ([(k, v)], r)
          rw [skipWs_space, skipWs_dump_append, ihP v hwf.1 (by omega) ('}' :: r) rfl]
          rfl
        | cons kv2 t2 =>
          have hser : dumpPairs ((k, v) :: kv2 :: t2) ++ '}' :: r =
              '"' :: (escChars k.data ++ '"' ::
                (':' :: ' ' :: (dumpVal v ++
                  (',' :: ' ' :: (dumpPairs (kv2 :: t2) ++ '}' :: r))))) := by
            rw [show dumpPairs ((k, v) :: kv2 :: t2) =
              ('"' :: (escChars k.data ++ '"' :: ':' :: ' ' :: dumpVal v)) ++
                ',' :: ' ' :: dumpPairs (kv2 :: t2) from rfl]
            simp [List.append_assoc]
          rw [hser, parseMembers_quote,
            parseStringBody_escape k.data
              (':' :: ' ' :: (dumpVal v ++
                (',' :: ' ' :: (dumpPairs (kv2 :: t2) ++ '}' :: r))))]
          show (match parseVal f
                  (skipWs (' ' :: (dumpVal v ++
                    (',' :: ' ' :: (dumpPairs (kv2 :: t2) ++ '}' :: r))))) with
                | Except.error e => (Except.error e :
                    Except PyErr (List (String × PyVal) × List Char))
                | Except.ok (v2, r3) =>
                  match skipWs r3 with
                  | ',' :: r4 =>
                    (match parseMembers f (skipWs r4) with
                     | Except.error e => Except.error e
                     | Except.ok (kvs2, r5) => Except.ok ((String.mk k.data, v2) :: kvs2, r5))
                  | '}' :: r4 => Except.ok ([(String.mk k.data, v2)], r4)
                  | _ => Except.error PyErr.jsonDecodeError) = Except.ok ((k, v) :: kv2 :: t2, r)
          rw [skipWs_space, skipWs_dump_append,
            ihP v hwf.1 (by omega)
              (',' :: ' ' :: (dumpPairs (kv2 :: t2) ++ '}' :: r)) rfl]
          show (match parseMembers f (skipWs (' ' :: (dumpPairs (kv2 :: t2) ++ '}' :: r))) with
                | Except.error e => Except.error e
                | Except.ok (kvs2, r5) => (Except.ok ((String.mk k.data, v) :: kvs2, r5) :
                    Except PyErr (List (String × PyVal) × List Char))) =
              Except.ok ((k, v) :: kv2 :: t2, r)
          rw [skipWs_space, skipWs_dumpPairs,
            ihR (kv2 :: t2) hwf.2 (by simp)
              (by
                have := pySize_pos v
                omega) r]

theorem pyLoadsC_dumpVal (v : PyVal) (h : pyWf v = true) :
    pyLoadsC (dumpVal v) = .ok v := by
  unfold pyLoadsC
  have h1 : skipWs (dumpVal v) = dumpVal v := by
    have h2 := skipWs_dump_append v []
    simpa using h2
  rw [h1, ← List.append_nil (dumpVal v)]
  have hP := (parse_dump_mutual ((dumpVal v ++ []).length + 1)).1 v h
    (by
      have := pySize_le_dumpLen v
      simp
      omega) [] rfl
  rw [hP]
  rfl

theorem splitNl_line : ∀ l t : List Char, '\n' ∉ l →
    splitNl (l ++ '\n' :: t) = l :: splitNl t := by
  intro l
  induction l with
  | nil => intro t h; simp [splitNl]
  | cons c cs ih =>
    intro t h
    have hc : c ≠ '\n' := fun he => h (by simp [he])
    rw [List.cons_append]
    simp only [splitNl, hc, if_neg, not_false_eq_true]
    rw [ih t (fun hm => h (by simp [hm]))]

theorem writeAll_append (a b : List PyVal) :
    writeAll (a ++ b) = writeAll a ++ writeAll b := by
  induction a with
  | nil => simp [writeAll]
  | cons r t ih => simp [writeAll, ih]

theorem splitNl_writeAll : ∀ rs : List PyVal,
    splitNl (writeAll rs) = rs.map dumpVal ++ [[]] := by
  intro rs
  induction rs with
  | nil => simp [writeAll, splitNl]
  | cons r t ih =>
    rw [show writeAll (r :: t) = dumpVal r ++ '\n' :: writeAll t from rfl,
      splitNl_line (dumpVal r) (writeAll t) (dump_no_nl r), ih]
    simp

theorem fileLines_writeAll (rs : List PyVal) :
    fileLines (writeAll rs) = rs.map dumpVal := by
  simp only [fileLines]
  rw [splitNl_writeAll, List.getLast?_concat]
  simp

/-- Claim C6: persisting N validated records writes exactly N lines, and
decoding each line with `json.loads` yields the corresponding record
unchanged (serialize/parse round-trip), for every record wellformed as a
Python value (distinct dict keys, as Python dicts guarantee). -/
theorem writeAll_roundtrip (rs : List PyVal) (h : ∀ r2 ∈ rs, pyWf r2 = true) :
    (fileLines (writeAll rs)).length = rs.length ∧
    List.Forall₂ (fun line r2 => pyLoadsC line = .ok r2) (fileLines (writeAll rs)) rs := by
  rw [fileLines_writeAll]
  refine ⟨by simp, ?_⟩
  induction rs with
  | nil => simp
  | cons r t ih =>
    simp only [List.map_cons]
    exact List.Forall₂.cons (pyLoadsC_dumpVal r (h r (by simp)))
      (ih (fun z hz => h z (by simp [hz])))

/-- Claim C6 (witness): one concrete record with a non-ASCII section. -/
theorem writeAll_roundtrip_witness :
    (∀ r2 ∈ [recW2], pyWf r2 = true) ∧
    ((fileLines (writeAll [recW2])).length = [recW2].length ∧
      List.Forall₂ (fun line r2 => pyLoadsC line = .ok r2)
        (fileLines (writeAll [recW2])) [recW2]) :=
  ⟨by decide, writeAll_roundtrip [recW2] (by decide)⟩

theorem mainCli_nonempty_output (env : CliEnv) (res : CliResult)
    (h : mainCli env = some (.ok res)) (hne : res.allData ≠ []) :
    res.newOutput = some ((env.prevOutput.getD []) ++ writeAll res.allData) := by
  simp only [mainCli] at h
  split at h
  · simp at h
    rw [← h] at hne
    simp at hne
  · split at h
    · simp at h
    · simp at h
    · rename_i allData hrf
      split at h
      · rename_i hae
        simp at h
        rw [← h] at hne
        simp at hne
        exact absurd (List.isEmpty_iff.mp hae) hne
      · simp at h
        rw [← h]

/-- Claim C7: two successive runs against the same output path (absent
before the first), each accumulating records, leave the file holding
exactly both runs' lines, the first run's lines before the second's. -/
theorem mainCli_append_two_runs (env1 env2 : CliEnv) (r1 r2 : CliResult)
    (hprev : env1.prevOutput = Option.none)
    (h1 : mainCli env1 = some (.ok r1)) (hd1 : r1.allData ≠ [])
    (hlink : env2.prevOutput = r1.newOutput)
    (h2 : mainCli env2 = some (.ok r2)) (hd2 : r2.allData ≠ []) :
    r2.newOutput = some (writeAll r1.allData ++ writeAll r2.allData) ∧
    fileLines ((r2.newOutput).getD []) =
      r1.allData.map dumpVal ++ r2.allData.map dumpVal := by
  have ho1 := mainCli_nonempty_output env1 r1 h1 hd1
  rw [hprev, Option.getD_none, List.nil_append] at ho1
  have ho2 := mainCli_nonempty_output env2 r2 h2 hd2
  rw [hlink, ho1, Option.getD_some] at ho2
  refine ⟨ho2, ?_⟩
  rw [ho2, Option.getD_some, ← writeAll_append, fileLines_writeAll, List.map_append]

/-- Claim C7 (witness): two concrete runs over `d/x.pdf` then `d/y.pdf`. -/
theorem mainCli_append_two_runs_witness :
    (CliResult.mk ["d/y.pdf"] [recW2]
        (some (writeAll [recW] ++ writeAll [recW2])) false false).newOutput =
      some (writeAll ([recW] : List PyVal) ++ writeAll [recW2]) ∧
    fileLines (((CliResult.mk ["d/y.pdf"] [recW2]
        (some (writeAll [recW] ++ writeAll [recW2])) false false).newOutput).getD []) =
      ([recW] : List PyVal).map dumpVal ++ ([recW2] : List PyVal).map dumpVal :=
  mainCli_append_two_runs cliEnvW cliEnvW2
    ⟨["d/x.pdf"], [recW], some (writeAll [recW]), false, false⟩
    ⟨["d/y.pdf"], [recW2], some (writeAll [recW] ++ writeAll [recW2]), false, false⟩
    rfl (by decide) (by decide) rfl (by decide) (by decide)
